import Mathlib

/-!
Verification of the scan-and-classify engine of the mac-disk-analyser
repository (src/main.py) against its specification.

The Python source is shallowly embedded as follows.

* Python strings are Lean `String`s; the ASCII case operations `str.lower`,
  `str.upper`, `str.capitalize` are modelled with `Char.toLower` /
  `Char.toUpper` (all patterns and generated text in the program are ASCII).
* Python floats are modelled as exact rationals (`Rat`).  Every arithmetic
  step the program performs on floats (division by 1024, multiplication by
  powers of 1024, comparison with 1024) is exact in IEEE double precision
  for the byte counts the program handles, so the rational model computes
  the same values the Python program computes.
* The two-decimal float formatting `f-string .2f` is modelled by
  `roundHE` (round half to even, the rounding used by the C library for
  exactly representable values) followed by decimal rendering.
* `os.walk` with its in-place pruning of the `dirs` list is modelled by
  `walkNodeF` over an explicit filesystem tree (`FSEntry`).  The recursion
  depth is made explicit as fuel; for every tree the walk is computed by
  any fuel at least the depth of the tree, and all theorems quantify over
  the fuel.
* The mutable module-level dictionaries (`_disk_summary_data`,
  `_directory_sizes_data`, `_suggested_files_data`) become the fields of
  the `ScanIndex` structure.  The four query operations are total Lean
  functions of a `ScanIndex`; they do not take or return a mutated state,
  which is the embedding of the fact that the Python functions only read
  the module state and never assign to it.
* `json.dumps` serialisation is modelled structurally: each query returns
  a `QueryOut` value holding exactly the data the Python function puts
  into the JSON string (or the literal message string it returns instead).
* Python `is_old_file` reads the file modification time from the OS; its
  result is modelled as the `old : Bool` attribute carried by each file
  of the filesystem tree.
-/

namespace DiskAnalyser

/-! ## Basic string machinery (models of Python `str` primitives) -/

/-- Model of Python `str.strip` (drop leading and trailing whitespace). -/
def stripWS (l : List Char) : List Char :=
  ((l.dropWhile Char.isWhitespace).reverse.dropWhile Char.isWhitespace).reverse

/-- Model of Python `str.upper` for ASCII text. -/
def upperChars (l : List Char) : List Char := l.map Char.toUpper

/-- Model of Python `str.lower` for ASCII text. -/
def lowerChars (l : List Char) : List Char := l.map Char.toLower

/-- Model of Python `str.lower` on `String`. -/
def lowerS (s : String) : String := String.mk (lowerChars s.data)

/-- Decides whether `p` is a prefix of `s` (char lists). -/
def isPreOf : List Char → List Char → Bool
  | [], _ => true
  | _ :: _, [] => false
  | a :: as, b :: bs => a = b && isPreOf as bs

/-- Model of Python `p in s` substring membership on char lists. -/
def isSubstrL : List Char → List Char → Bool
  | p, [] => isPreOf p []
  | p, c :: t => isPreOf p (c :: t) || isSubstrL p t

/-- Model of Python `p in s` substring membership on `String`. -/
def isSubstrS (p s : String) : Bool := isSubstrL p.data s.data

/-- Model of Python `s.startswith(p)` on `String`. -/
def strStartsB (p s : String) : Bool := isPreOf p.data s.data

/-- Model of Python `s.split(sep)` for a one-character separator. -/
def splitOnChar (sep : Char) : List Char → List (List Char)
  | [] => [[]]
  | c :: rest =>
    match splitOnChar sep rest with
    | [] => [[]]
    | piece :: pieces =>
      if c = sep then [] :: piece :: pieces else (c :: piece) :: pieces

/-- Model of Python `str.capitalize` for ASCII text: first character
upper-cased, all remaining characters lower-cased. -/
def capitalizeL : List Char → List Char
  | [] => []
  | c :: rest => c.toUpper :: rest.map Char.toLower

/-- Decimal value of a list of digit characters, folding left as a
positional numeral (the value Python assigns to a digit substring). -/
def parseNatChars (cs : List Char) : ℕ :=
  cs.foldl (fun a c => a * 10 + (c.toNat - 48)) 0

/-- Little-endian decimal digits of `n`, with explicit fuel (any fuel
at least `n` yields all digits). -/
def natDigitsRevF : ℕ → ℕ → List ℕ
  | 0, _ => []
  | fuel + 1, n => if n = 0 then [] else n % 10 :: natDigitsRevF fuel (n / 10)

/-- Value of a little-endian decimal digit list (proof device relating
the digit expansion to the rendered numeral). -/
def valRev : List ℕ → ℕ
  | [] => 0
  | d :: ds => d + 10 * valRev ds

/-- The character of a decimal digit. -/
def digitCh (d : ℕ) : Char := Char.ofNat (48 + d)

/-- Decimal rendering of a natural number (the digits Python prints for
the integer part of a nonnegative float). -/
def renderNat (n : ℕ) : List Char :=
  if n = 0 then [ '0' ] else ((natDigitsRevF n n).reverse.map digitCh)

/-- Two-digit decimal rendering of `r < 100` (the two decimal places). -/
def renderTwo (r : ℕ) : List Char := [digitCh (r / 10), digitCh (r % 10)]

/-- Round half to even: the rounding applied by `f-string .2f` formatting
(after scaling by 100).  Only used on nonnegative values, the only values
the program formats. -/
def roundHE (y : ℚ) : ℤ :=
  if Int.fract y < 1 / 2 then ⌊y⌋
  else if 1 / 2 < Int.fract y then ⌊y⌋ + 1
  else if ⌊y⌋ % 2 = 0 then ⌊y⌋ else ⌊y⌋ + 1

/-- Model of Python `f-string` two-decimal formatting of a nonnegative
float: round the value scaled by 100 half-to-even, then print
`<integer part>.<two digits>`. -/
def fmt2 (q : ℚ) : String :=
  String.mk (renderNat ((roundHE (q * 100)).toNat / 100)
    ++ '.' :: renderTwo ((roundHE (q * 100)).toNat % 100))

/-- Model of Python list slicing `xs[:n]` for an `int` bound `n`:
nonnegative `n` keeps the first `n` elements, negative `n` drops the
last `-n` elements. -/
def pySlice (n : ℤ) {α : Type} (xs : List α) : List α :=
  if 0 ≤ n then xs.take n.toNat else xs.take (xs.length - (-n).toNat)

/-! ## SizeUnitConverter (main.py lines 51-94) -/

/-- The digit analysis of Python `float(num_str)` for strings made only
of decimal digits and dots (the only shape `num_str` can have in
`convert_human_readable_to_bytes`): the parse succeeds iff the string
has at least one digit and at most one dot, and yields the integer-part
value, the fraction-part value and the fraction length. -/
def pyFloatParts (cs : List Char) : Option (ℕ × ℕ × ℕ) :=
  if cs.any Char.isDigit = false then none
  else
    match cs.dropWhile (fun c => c ≠ '.') with
    | [] => some (parseNatChars (cs.takeWhile (fun c => c ≠ '.')), 0, 0)
    | _ :: fp =>
      if fp.any (fun c => c = '.') then none
      else some (parseNatChars (cs.takeWhile (fun c => c ≠ '.')), parseNatChars fp, fp.length)

/-- Model of Python `float(num_str)` restricted to strings made only of
decimal digits and dots: the integer part plus the decimal fraction. -/
def pyFloatDigitsDot (cs : List Char) : Option ℚ :=
  match pyFloatParts cs with
  | none => none
  | some (i, f, len) => some ((i : ℚ) + (f : ℚ) / (10 : ℚ) ^ len)

/-- The character loop of `convert_human_readable_to_bytes` (lines 69-75):
digits and dots go to the number part, everything else to the unit part,
order preserved. -/
def splitNumUnit : List Char → List Char × List Char
  | [] => ([], [])
  | c :: cs =>
    match splitNumUnit cs with
    | (n, u) => if c.isDigit || c = '.' then (c :: n, u) else (n, c :: u)

/-- The unit-letter chain of `convert_human_readable_to_bytes`
(main.py lines 82-94): the first matching letter of K, M, G, T, P
selects the power of 1024; B and an absent unit both keep raw bytes. -/
def applyUnit (u : List Char) (num : ℚ) : ℚ :=
  if u.contains 'K' then num * 1024
  else if u.contains 'M' then num * 1024 ^ 2
  else if u.contains 'G' then num * 1024 ^ 3
  else if u.contains 'T' then num * 1024 ^ 4
  else if u.contains 'P' then num * 1024 ^ 5
  else if u.contains 'B' then num
  else num

/-- The exponent of 1024 selected by `applyUnit`. -/
def unitExp (u : List Char) : ℕ :=
  if u.contains 'K' then 1
  else if u.contains 'M' then 2
  else if u.contains 'G' then 3
  else if u.contains 'T' then 4
  else if u.contains 'P' then 5
  else 0

/-- Source: `convert_human_readable_to_bytes` (main.py lines 62-94):
strip and upper-case, return 0 on an empty result, split characters
into number and unit part, return 0 when the number part does not parse,
otherwise scale by the unit. -/
def convert_human_readable_to_bytes (size_str : String) : ℚ :=
  if upperChars (stripWS size_str.data) = [] then 0
  else
    match pyFloatDigitsDot (splitNumUnit (upperChars (stripWS size_str.data))).1 with
    | none => 0
    | some num => applyUnit (splitNumUnit (upperChars (stripWS size_str.data))).2 num

def spaceStr : String := " "

def pbStr : String := "PB"

def UNIT_NAMES : List String := [r"B", r"KB", r"MB", r"GB", r"TB", r"PB"]

/-- The unit loop of `convert_bytes_to_human_readable` (lines 56-60):
return at the first unit where the running value is below 1024,
otherwise divide by 1024 and move to the next unit; after the last unit
the value is formatted with unit `PB`. -/
def toHumanLoop : ℚ → List String → String
  | q, [] => fmt2 q ++ spaceStr ++ pbStr
  | q, u :: us => if q < 1024 then fmt2 q ++ spaceStr ++ u else toHumanLoop (q / 1024) us

def naStr : String := "N/A"

/-- Source: `convert_bytes_to_human_readable` (main.py lines 51-60);
`None` input yields the sentinel. -/
def convert_bytes_to_human_readable : Option ℚ → String
  | none => naStr
  | some v => toHumanLoop v UNIT_NAMES

/-! ## PathClassifier (main.py lines 36-39 and 106-115) -/

def CACHE_PATTERNS : List String :=
  [r"cache", r".cache", r"chromium", r"vscode", r"npm", r"yarn", r"brew",
   r"library/developer/xcode/deriveddata"]

def TEMP_PATTERNS : List String :=
  [r"temp", r".tmp", r"temporary", r"downloads", r"trash", r".Trash"]

def LOG_PATTERNS : List String := [r"log", r".log", r"logs"]

def cacheStr : String := "Cache"

def temporaryStr : String := "Temporary"

def logStr : String := "Log"

def otherStr : String := "Other"

/-- Model of Python `any(p in filepath_lower for p in pats)`. -/
def matchesAny (pats : List String) (fl : String) : Bool :=
  pats.any (fun p => isSubstrS p fl)

/-- Source: `classify_file` (main.py lines 106-115). -/
def classify_file (filepath : String) : String :=
  if matchesAny CACHE_PATTERNS (lowerS filepath) then cacheStr
  else if matchesAny TEMP_PATTERNS (lowerS filepath) then temporaryStr
  else if matchesAny LOG_PATTERNS (lowerS filepath) then logStr
  else otherStr

/-! ## SuggestionScanner bucket construction (main.py lines 187-217) -/

/-- `MIN_LARGE_FILE_SIZE_MB * 1024 * 1024` (main.py lines 31 and 170). -/
def MIN_SIZE_BYTES : ℕ := 100 * 1024 * 1024

def largeStr : String := "Large"

def oldStr : String := "Old"

/-- Lexicographic strict order on char lists by code point, the order
Python `sorted` uses on strings. -/
def strLtB : List Char → List Char → Bool
  | [], [] => false
  | [], _ :: _ => true
  | _ :: _, [] => false
  | a :: as, b :: bs => a < b || (a = b && strLtB as bs)

def insertStrAsc (x : String) : List String → List String
  | [] => [x]
  | y :: ys => if strLtB x.data y.data then x :: y :: ys else y :: insertStrAsc x ys

/-- Model of Python `sorted` on a list of strings. -/
def sortStrs : List String → List String
  | [] => []
  | x :: xs => insertStrAsc x (sortStrs xs)

/-- A file record as stored in a suggestion bucket:
`{"path": filepath, "size": file_size}` (main.py line 206). -/
structure FileRec where
  path : String
  size : ℕ
deriving DecidableEq

/-- The `_suggested_files_data` defaultdict: association list from the
sorted tag tuple to the list of file records, in key insertion order. -/
abbrev BucketMap : Type := List (List String × List FileRec)

/-- Reading a bucket (defaultdict lookup: missing key reads as empty). -/
def bucketGet (m : BucketMap) (k : List String) : List FileRec :=
  match m with
  | [] => []
  | p :: rest => if p.1 = k then p.2 else bucketGet rest k

/-- Appending to a bucket of the defaultdict: the record is appended at
the end of the list of the (first) entry with key `k`; a missing key is
created at the end of the map, as Python dict insertion does. -/
def addToBucket (m : BucketMap) (k : List String) (r : FileRec) : BucketMap :=
  match m with
  | [] => [(k, [r])]
  | p :: rest => if p.1 = k then (p.1, p.2 ++ [r]) :: rest else p :: addToBucket rest k r

/-- The `suggestion_type` list built for one file (main.py lines 197-203):
`Large` if the size reaches the threshold, then `Old` if the age
classifier fired, then the path classification when it is not Other. -/
def tagsOf (filepath : String) (file_size : ℕ) (old : Bool) : List String :=
  (if MIN_SIZE_BYTES ≤ file_size then [largeStr] else [])
  ++ (if old then [oldStr] else [])
  ++ (if classify_file filepath ≠ otherStr then [classify_file filepath] else [])

/-- Processing of one regular file during the suggestion walk
(main.py lines 187-206): when at least one of the three criteria holds,
the record is appended to the bucket keyed by the sorted tag tuple. -/
def processFile (m : BucketMap) (filepath : String) (file_size : ℕ) (old : Bool) : BucketMap :=
  if MIN_SIZE_BYTES ≤ file_size ∨ old = true ∨ classify_file filepath ≠ otherStr then
    if tagsOf filepath file_size old ≠ [] then
      addToBucket m (sortStrs (tagsOf filepath file_size old)) ⟨filepath, file_size⟩
    else m
  else m

/-! ## The suggestion walk (main.py lines 172-217) -/

/-- A filesystem entry: a regular file (with its size and the value the
age classifier returns for it) or a directory with its listing. -/
inductive FSEntry where
  | file (name : String) (size : ℕ) (old : Bool)
  | dir (name : String) (children : List FSEntry)

/-- The regular files of one directory listing. -/
def filesOf (es : List FSEntry) : List (String × ℕ × Bool) :=
  es.filterMap (fun e =>
    match e with
    | FSEntry.file n sz od => some (n, sz, od)
    | FSEntry.dir _ _ => none)

/-- The subdirectories of one directory listing, with their listings. -/
def dirPairsOf (es : List FSEntry) : List (String × List FSEntry) :=
  es.filterMap (fun e =>
    match e with
    | FSEntry.file _ _ _ => none
    | FSEntry.dir n ch => some (n, ch))

def dotStr : String := "."

def dollarStr : String := "$"

def tmpStr : String := "tmp"

def containersStr : String := "Containers"

def libraryContainersStr : String := "Library/Containers"

def trashStr : String := ".Trash"

/-- The keep condition of the pruning filter (main.py line 179):
`not d.startswith(('.', '$')) and d != 'tmp'`. -/
def keepDirName (d : String) : Bool :=
  !(strStartsB dotStr d || strStartsB dollarStr d) && !(d = tmpStr)

/-- Python `list.remove(x)`: removes the first entry named `x`. -/
def removeFirstByName (x : String) : List (String × List FSEntry) → List (String × List FSEntry)
  | [] => []
  | p :: rest => if p.1 = x then rest else p :: removeFirstByName x rest

def containsName (x : String) (l : List (String × List FSEntry)) : Bool :=
  l.any (fun p => p.1 = x)

/-- The sandbox-container prune (main.py lines 180-183): below the home
directory inside `Library/Containers`, a `Containers` entry is removed. -/
def pruneContainers (home cur : String) (d1 : List (String × List FSEntry)) :
    List (String × List FSEntry) :=
  if isSubstrS libraryContainersStr cur && isSubstrS home cur then
    (if containsName containersStr d1 then removeFirstByName containersStr d1 else d1)
  else d1

/-- The trash prune (main.py line 184): a `.Trash` entry is removed. -/
def pruneTrash (d2 : List (String × List FSEntry)) : List (String × List FSEntry) :=
  if containsName trashStr d2 then removeFirstByName trashStr d2 else d2

/-- The pruning of `dirs` before descent (main.py lines 179-184): the
filter on leading `.` and `$` and on the name `tmp`, then the
`Containers` removal, then the `.Trash` removal. -/
def prunePairs (home cur : String) (ds : List (String × List FSEntry)) :
    List (String × List FSEntry) :=
  pruneTrash (pruneContainers home cur (ds.filter (fun p => keepDirName p.1)))

/-- Model of `os.path.join(root, name)` for a relative `name`. -/
def joinPath (a b : String) : String := a ++ "/" ++ b

/-- The `os.walk` traversal with pruning (main.py lines 177-206),
top-down, symlinks not followed.  Returns, for each regular file
reached, the chain of directory names below the starting root, the file
name, its size, and its age flag.  `fuel` bounds the recursion depth;
any fuel at least the tree depth computes the full walk. -/
def walkNodeF : ℕ → String → String → List FSEntry → List (List String × String × ℕ × Bool)
  | 0, _, _, _ => []
  | fuel + 1, home, cur, es =>
    (filesOf es).map (fun f => (([] : List String), f))
    ++ (prunePairs home cur (dirPairsOf es)).flatMap
        (fun p => (walkNodeF fuel home (joinPath cur p.1) p.2).map
          (fun r => (p.1 :: r.1, r.2)))

/-- The full path of a walked file: the root joined with each directory
segment and the file name (`os.path.join(root, name)` at line 188). -/
def pathOfRec (root : String) (segs : List String) (name : String) : String :=
  joinPath (segs.foldl joinPath root) name

/-- All files recorded by walking every suggestion root (main.py
lines 172-188), as (path, size, old) triples in walk order. -/
def scanFiles (fuel : ℕ) (home : String) (roots : List (String × List FSEntry)) :
    List (String × ℕ × Bool) :=
  roots.flatMap (fun rp =>
    (walkNodeF fuel home rp.1 rp.2).map (fun r => (pathOfRec rp.1 r.1 r.2.1, r.2.2)))

/-- Folding the per-file processing over a list of recorded files
(the body of the suggestion walk, main.py lines 187-206). -/
def buildBuckets (fs : List (String × ℕ × Bool)) (m : BucketMap) : BucketMap :=
  match fs with
  | [] => m
  | f :: rest => buildBuckets rest (processFile m f.1 f.2.1 f.2.2)

/-- The bucket map produced by the suggestion phase of
`run_initial_scan` over the given roots. -/
def runSuggestionWalk (fuel : ℕ) (home : String)
    (roots : List (String × List FSEntry)) : BucketMap :=
  buildBuckets (scanFiles fuel home roots) []

/-! ## DirectorySizeProber parsing (main.py lines 146-165) -/

/-- Parse of one `du -sh` output line (main.py lines 154-157): strip,
split on the tab, and on exactly two fields convert the size and keep
the path. -/
def parse_du_output (out : String) : Option (String × ℚ) :=
  match splitOnChar '\t' (stripWS out.data) with
  | [a, b] => some (String.mk b, convert_human_readable_to_bytes (String.mk a))
  | _ => none

/-- Model of Python stable `sorted(..., reverse=True)` under the given
comparison: `ge x y` holds when `x` may come before `y`.  Insertion
sort places each element before the first element it may precede, which
is exactly the stable behaviour of Python `sorted`. -/
def sortDescBy {α : Type} (ge : α → α → Bool) (l : List α) : List α :=
  List.insertionSort (fun a b => ge a b = true) l

/-- Comparison for `sorted(dir_sizes.items(), key=size, reverse=True)`
(main.py line 165). -/
def dirGe (a b : String × ℚ) : Bool := b.2 ≤ a.2

/-- Comparison for `sorted(items, key=size, reverse=True)`
(main.py line 282). -/
def recGe (a b : FileRec) : Bool := b.size ≤ a.size

/-- Comparison for `sorted(keys, key=len, reverse=True)`
(main.py line 275). -/
def keyGe (a b : List String) : Bool := b.length ≤ a.length

/-- The sorted directory list built by `run_initial_scan`
(main.py line 165). -/
def sortDirEntries (l : List (String × ℚ)) : List (String × ℚ) :=
  sortDescBy dirGe l

/-! ## ScanIndex and the query operations (main.py lines 44-47, 224-334) -/

/-- The `_disk_summary_data` dict when nonempty (main.py lines 127-133). -/
structure DiskSummary where
  total : ℕ
  used : ℕ
  free : ℕ
  usage_percentage : ℚ
deriving DecidableEq

/-- The module-level scan state (main.py lines 44-47): disk summary,
sorted directory sizes, suggestion buckets. -/
structure ScanIndex where
  disk_summary : Option DiskSummary
  directory_sizes : List (String × ℚ)
  suggested : BucketMap

/-- Structured value of a query result: either a literal message string
the Python function returns, or the data it serialises to JSON. -/
inductive QueryOut where
  | message (s : String)
  | info (total used free pct : String)
  | dirTable (rows : List (String × String))
  | sugSummary (total : ℕ) (cats : List (String × ℕ))
  | sugTable (rows : List (String × List (String × String)))
  | noMatch (requested : String)
  | pathList (paths : List String)
deriving DecidableEq

def noSummaryMsg : String := "Disk summary data not available."

def noDirMsg : String :=
  "No directory size data available. Please ensure the initial scan completed successfully."

def noSugMsg : String := "No specific cleanup suggestions found based on current criteria."

def noPathsPre : String := "No paths found containing \x27"

def noPathsSuf : String := "\x27 in scan results."

def pctStr : String := "%"

/-- Source: `get_overall_disk_info` (main.py lines 224-236). -/
def get_overall_disk_info (idx : ScanIndex) : QueryOut :=
  match idx.disk_summary with
  | none => QueryOut.message noSummaryMsg
  | some d =>
    QueryOut.info (convert_bytes_to_human_readable (some (d.total : ℚ)))
      (convert_bytes_to_human_readable (some (d.used : ℚ)))
      (convert_bytes_to_human_readable (some (d.free : ℚ)))
      (fmt2 (d.usage_percentage * 100) ++ pctStr)

/-- Source: `get_top_n_directories` (main.py lines 238-250). -/
def get_top_n_directories (idx : ScanIndex) (n : ℤ) : QueryOut :=
  if idx.directory_sizes = [] then QueryOut.message noDirMsg
  else QueryOut.dirTable ((pySlice n idx.directory_sizes).map
    (fun pr => (pr.1, convert_bytes_to_human_readable (some pr.2))))

def emptyStr : String := ""

/-- The parsing of the `suggestion_type` argument (main.py lines 271-273):
a missing or empty string gives no filter, otherwise the comma-separated
pieces are stripped and capitalized. -/
def parseRequested : Option String → List String
  | none => []
  | some s =>
    if s = emptyStr then []
    else (splitOnChar ',' s.data).map (fun piece => String.mk (capitalizeL (stripWS piece)))

/-- Model of `any(rt in s_type_name for rt in requested_types)`
(main.py line 279). -/
def reqMatch (req : List String) (name : String) : Bool :=
  req.any (fun rt => isSubstrS rt name)

/-- The space-joined bucket name `" ".join(s_type_tuple)` (line 278). -/
def spaceJoin (k : List String) : String := String.intercalate spaceStr k

/-- One bucket entry of the results dict (main.py lines 282-288): the
bucket items sorted descending by size, sliced to `limit`, with
human-readable sizes. -/
def truncFormat (limit : ℤ) (items : List FileRec) : List (String × String) :=
  (pySlice limit (sortDescBy recGe items)).map
    (fun r => (r.path, convert_bytes_to_human_readable (some (r.size : ℚ))))

/-- The results accumulation loop of `get_suggested_files`
(main.py lines 275-289). -/
def buildResults (m : BucketMap) (req : List String) (limit : ℤ)
    (keys : List (List String)) : List (String × List (String × String)) :=
  keys.foldl (fun acc k =>
    if req ≠ [] ∧ reqMatch req (spaceJoin k) = false then acc
    else acc ++ [(spaceJoin k, truncFormat limit (bucketGet m k))]) []

/-- Source: `get_suggested_files` (main.py lines 252-309). -/
def get_suggested_files (idx : ScanIndex) (suggestion_type : Option String)
    (limit : ℤ) : QueryOut :=
  if idx.suggested = [] then QueryOut.message noSugMsg
  else
    match buildResults idx.suggested (parseRequested suggestion_type) limit
        (sortDescBy keyGe (idx.suggested.map Prod.fst)) with
    | [] =>
      if parseRequested suggestion_type ≠ [] then
        QueryOut.noMatch (match suggestion_type with | some s => s | none => emptyStr)
      else QueryOut.message noSugMsg
    | r :: rs =>
      if parseRequested suggestion_type = [] then
        QueryOut.sugSummary ((idx.suggested.map (fun b => b.2.length)).sum)
          (idx.suggested.map (fun b => (spaceJoin b.1, b.2.length)))
      else QueryOut.sugTable (r :: rs)

/-- Ordered-set accumulation: the Python code collects found paths in a
`set`; the model keeps first-encounter order (set iteration order is
unspecified in Python, the membership is what the theorems use). -/
def dedupAppend (seen : List String) (x : String) : List String :=
  if x ∈ seen then seen else seen ++ [x]

/-- Source: `search_paths` (main.py lines 312-334). -/
def search_paths (idx : ScanIndex) (query : String) : QueryOut :=
  match ((idx.directory_sizes.filter
      (fun pr => isSubstrS (lowerS query) (lowerS pr.1))).map Prod.fst
    ++ idx.suggested.flatMap (fun b =>
      (b.2.filter (fun r => isSubstrS (lowerS query) (lowerS r.path))).map
        (fun r => r.path))).foldl dedupAppend [] with
  | [] => QueryOut.message (noPathsPre ++ query ++ noPathsSuf)
  | p :: ps => QueryOut.pathList ((p :: ps).take 20)

/-! ## Specification-side definitions (for refinement comparison only) -/

/-- Written from the spec words for claim C6: case-insensitive substring
containment ("substring match on the space-joined tag tuple,
case-insensitive"). -/
def specCaseInsensitiveSubstr (p s : String) : Bool :=
  isSubstrL (lowerChars p.data) (lowerChars s.data)

/-! ## Concrete sample values used by witnesses and counterexamples -/

/-- A `du -sh` output line with a fractional size. -/
def duLineFrac : String := "1.2G\t/Users/u"

/-- A `du -sh` output line with a whole-byte size. -/
def duLineWhole : String := "512B\t/tmp/x"

/-- A sample forest of suggestion roots: `/tmp` containing a
subdirectory `sub` holding an old log file. -/
def sampleRoots : List (String × List FSEntry) :=
  [(r"/tmp", [FSEntry.dir (r"sub") [FSEntry.file (r"x.log") 5 true]])]

/-- The scan index before any data is collected. -/
def emptyIndex : ScanIndex := ⟨none, [], []⟩

/-- Unsorted raw directory sizes as collected from the probe. -/
def sampleDirsRaw : List (String × ℚ) := [(r"a", 1), (r"b", 2)]

/-- A directory list already sorted descending, as the scan stores it. -/
def sampleDirsSorted : List (String × ℚ) := [(r"a", 2), (r"b", 1)]

/-- An index holding only the sorted sample directory list. -/
def sampleIdxDirs : ScanIndex := ⟨none, sampleDirsSorted, []⟩

/-- A bucket map holding one `(Large,)` bucket. -/
def sampleBucketLarge : BucketMap :=
  [([largeStr], [FileRec.mk (r"/a/big.bin") 200000000])]

/-- An index holding only the `(Large,)` bucket. -/
def sampleIdxLarge : ScanIndex := ⟨none, [], sampleBucketLarge⟩

/-- A bucket map holding a `(Cache,)` and a `(Cache, Large)` bucket. -/
def sampleBucketsCache : BucketMap :=
  [([cacheStr], [FileRec.mk (r"/c/one") 10]),
   ([cacheStr, largeStr], [FileRec.mk (r"/c/two") 300000000])]

/-- An index holding the two cache buckets. -/
def sampleIdxCache : ScanIndex := ⟨none, [], sampleBucketsCache⟩

/-! ## Helper lemmas -/

theorem applyUnit_eq (u : List Char) (num : ℚ) :
    applyUnit u num = num * 1024 ^ unitExp u := by
  unfold applyUnit unitExp
  split_ifs <;> norm_num

theorem roundHE_natCast (n : ℕ) : roundHE ((n : ℕ) : ℚ) = (n : ℤ) := by
  unfold roundHE
  rw [Int.fract_natCast]
  norm_num

theorem fmt2_natCast (n : ℕ) :
    fmt2 ((n : ℕ) : ℚ) = String.mk (renderNat n ++ [ '.', '0', '0' ]) := by
  unfold fmt2
  have h : ((n : ℚ) * 100) = (((n * 100 : ℕ) : ℕ) : ℚ) := by push_cast; ring
  rw [h, roundHE_natCast]
  have h2 : ((n * 100 : ℕ) : ℤ).toNat = n * 100 := by omega
  rw [h2]
  have h3 : n * 100 / 100 = n := by omega
  have h4 : n * 100 % 100 = 0 := by omega
  rw [h3, h4]
  rfl

theorem pyFloatDigitsDot_nonneg (cs : List Char) (q : ℚ)
    (h : pyFloatDigitsDot cs = some q) : 0 ≤ q := by
  unfold pyFloatDigitsDot at h
  rcases hp : pyFloatParts cs with _ | ⟨i, f, len⟩
  · rw [hp] at h; exact absurd h (by simp)
  · rw [hp] at h
    simp only [Option.some.injEq] at h
    subst h
    positivity

theorem convert_human_readable_to_bytes_nonneg (s : String) :
    0 ≤ convert_human_readable_to_bytes s := by
  unfold convert_human_readable_to_bytes
  by_cases hs : upperChars (stripWS s.data) = []
  · rw [if_pos hs]
  · rw [if_neg hs]
    rcases hp : pyFloatDigitsDot (splitNumUnit (upperChars (stripWS s.data))).1
        with _ | q
    · exact le_refl 0
    · have hq : 0 ≤ q := pyFloatDigitsDot_nonneg _ _ hp
      show 0 ≤ applyUnit (splitNumUnit (upperChars (stripWS s.data))).2 q
      rw [applyUnit_eq]
      exact mul_nonneg hq (by positivity)

/-! ## Claim C3: classification priority order -/

/-- C3: for every path string, `classify_file` lower-cases the path and
tests substring membership against the cache, temporary and log pattern
tables in that fixed order, returning Cache for the first table matched,
then Temporary, then Log, and Other when no pattern of any table occurs
in the lower-cased path; in particular a path matching both a cache and
a log pattern is classified Cache. -/
theorem c3_classify_file_fixed_priority (p : String) :
    (classify_file p = cacheStr ↔ matchesAny CACHE_PATTERNS (lowerS p) = true)
  ∧ (classify_file p = temporaryStr ↔
      (matchesAny CACHE_PATTERNS (lowerS p) = false
        ∧ matchesAny TEMP_PATTERNS (lowerS p) = true))
  ∧ (classify_file p = logStr ↔
      (matchesAny CACHE_PATTERNS (lowerS p) = false
        ∧ matchesAny TEMP_PATTERNS (lowerS p) = false
        ∧ matchesAny LOG_PATTERNS (lowerS p) = true))
  ∧ (classify_file p = otherStr ↔
      (matchesAny CACHE_PATTERNS (lowerS p) = false
        ∧ matchesAny TEMP_PATTERNS (lowerS p) = false
        ∧ matchesAny LOG_PATTERNS (lowerS p) = false))
  ∧ (matchesAny CACHE_PATTERNS (lowerS p) = true →
      matchesAny LOG_PATTERNS (lowerS p) = true → classify_file p = cacheStr) := by
  unfold classify_file
  rcases hc : matchesAny CACHE_PATTERNS (lowerS p) <;>
    rcases ht : matchesAny TEMP_PATTERNS (lowerS p) <;>
    rcases hl : matchesAny LOG_PATTERNS (lowerS p) <;>
    simp [hc, ht, hl, cacheStr, temporaryStr, logStr, otherStr]

/-- Witness for C3 at a path that matches both a cache and a log pattern. -/
theorem c3_classify_file_fixed_priority_witness :
    matchesAny CACHE_PATTERNS (lowerS (r"/var/cache/app.log")) = true
  ∧ matchesAny LOG_PATTERNS (lowerS (r"/var/cache/app.log")) = true
  ∧ classify_file (r"/var/cache/app.log") = cacheStr :=
  ⟨by decide, by decide,
    (c3_classify_file_fixed_priority (r"/var/cache/app.log")).2.2.2.2
      (by decide) (by decide)⟩

/-! ## Claim C7: the byte parser never raises -/

/-- C7: for every input string (including empty, whitespace-only, or
strings with no parseable numeric portion), `convert_human_readable_to_bytes`
returns without raising (it is a total function of the input string),
and when the numeric portion cannot be parsed as a number it returns 0. -/
theorem c7_tobytes_unparseable_yields_zero (s : String) :
    pyFloatParts (splitNumUnit (upperChars (stripWS s.data))).1 = none →
      convert_human_readable_to_bytes s = 0 := by
  intro h
  unfold convert_human_readable_to_bytes
  by_cases hs : upperChars (stripWS s.data) = []
  · rw [if_pos hs]
  · rw [if_neg hs]
    have hd : pyFloatDigitsDot (splitNumUnit (upperChars (stripWS s.data))).1 = none := by
      unfold pyFloatDigitsDot
      rw [h]
    rw [hd]

/-- Witness for C7 at a string with no parseable numeric portion. -/
theorem c7_tobytes_unparseable_yields_zero_witness :
    pyFloatParts (splitNumUnit (upperChars (stripWS (r"abc").data))).1 = none
  ∧ convert_human_readable_to_bytes (r"abc") = 0 :=
  ⟨by decide, c7_tobytes_unparseable_yields_zero (r"abc") (by decide)⟩

/-! ## Claim C9: parsed directory sizes -/

/-- C9 counterexample: the claim says every stored directory size is an
integral number of bytes, yet parsing the well-formed probe output line
`1.2G<TAB>/Users/u` stores the non-integral value 6442450944/5
(= 1288490188.8) for `/Users/u`. -/
theorem c9_integral_size_counterexample :
    parse_du_output duLineFrac = some (r"/Users/u", 6442450944 / 5)
  ∧ ¬ ∃ n : ℤ, ((n : ℚ) = 6442450944 / 5) := by
  constructor
  · unfold parse_du_output
    have hsp : splitOnChar '\t' (stripWS duLineFrac.data) =
        [[ '1', '.', '2', 'G' ], [ '/', 'U', 's', 'e', 'r', 's', '/', 'u' ]] := by decide
    rw [hsp]
    have h1 : upperChars (stripWS (String.mk [ '1', '.', '2', 'G' ]).data) =
        [ '1', '.', '2', 'G' ] := by decide
    have h2 : splitNumUnit [ '1', '.', '2', 'G' ] = ([ '1', '.', '2' ], [ 'G' ]) := by decide
    have h3 : pyFloatParts [ '1', '.', '2' ] = some (1, 2, 1) := by decide
    have hval : convert_human_readable_to_bytes (String.mk [ '1', '.', '2', 'G' ]) =
        6442450944 / 5 := by
      unfold convert_human_readable_to_bytes
      rw [h1]
      rw [if_neg (by decide)]
      simp only [h2, pyFloatDigitsDot, h3, applyUnit_eq]
      have h4 : unitExp [ 'G' ] = 3 := by decide
      rw [h4]
      norm_num
    show some (String.mk [ '/', 'U', 's', 'e', 'r', 's', '/', 'u' ],
        convert_human_readable_to_bytes (String.mk [ '1', '.', '2', 'G' ])) =
      some (r"/Users/u", 6442450944 / 5)
    rw [hval]
  · rintro ⟨n, hn⟩
    have h5 : (n : ℚ) * 5 = 6442450944 := by
      rw [hn]; norm_num
    have h6 : ((n * 5 : ℤ) : ℚ) = ((6442450944 : ℤ) : ℚ) := by push_cast; linarith
    have h7 : n * 5 = 6442450944 := Int.cast_injective h6
    omega

/-- C9 amended: every size stored for a directory entry is a
non-negative rational number of bytes (the value of a Python float);
parsing the probe output can yield a non-integral value, so integrality
does not hold, but non-negativity does. -/
theorem c9_parsed_sizes_nonneg :
    (∀ s : String, 0 ≤ convert_human_readable_to_bytes s)
  ∧ ∀ out p : String, ∀ q : ℚ, parse_du_output out = some (p, q) → 0 ≤ q := by
  constructor
  · exact convert_human_readable_to_bytes_nonneg
  · intro out p q h
    unfold parse_du_output at h
    rcases hsp : splitOnChar '\t' (stripWS out.data) with _ | ⟨a, _ | ⟨b, _ | ⟨c, rest⟩⟩⟩ <;>
      rw [hsp] at h
    · exact Option.noConfusion h
    · exact Option.noConfusion h
    · have h3 : (String.mk b, convert_human_readable_to_bytes (String.mk a)) = (p, q) :=
        Option.some.inj h
      have h4 : convert_human_readable_to_bytes (String.mk a) = q := congrArg Prod.snd h3
      rw [← h4]
      exact convert_human_readable_to_bytes_nonneg _
    · exact Option.noConfusion h

/-- Witness for C9 (amended) at a whole-byte probe line. -/
theorem c9_parsed_sizes_nonneg_witness :
    parse_du_output duLineWhole = some (r"/tmp/x", 512) ∧ (0 : ℚ) ≤ 512 := by
  have hp : parse_du_output duLineWhole = some (r"/tmp/x", 512) := by
    unfold parse_du_output
    have hsp : splitOnChar '\t' (stripWS duLineWhole.data) =
        [[ '5', '1', '2', 'B' ], [ '/', 't', 'm', 'p', '/', 'x' ]] := by decide
    rw [hsp]
    have h1 : upperChars (stripWS (String.mk [ '5', '1', '2', 'B' ]).data) =
        [ '5', '1', '2', 'B' ] := by decide
    have h2 : splitNumUnit [ '5', '1', '2', 'B' ] = ([ '5', '1', '2' ], [ 'B' ]) := by decide
    have h3 : pyFloatParts [ '5', '1', '2' ] = some (512, 0, 0) := by decide
    have hval : convert_human_readable_to_bytes (String.mk [ '5', '1', '2', 'B' ]) = 512 := by
      unfold convert_human_readable_to_bytes
      rw [h1]
      rw [if_neg (by decide)]
      simp only [h2, pyFloatDigitsDot, h3, applyUnit_eq]
      have h4 : unitExp [ 'B' ] = 0 := by decide
      rw [h4]
      norm_num
    show some (String.mk [ '/', 't', 'm', 'p', '/', 'x' ],
        convert_human_readable_to_bytes (String.mk [ '5', '1', '2', 'B' ])) =
      some (r"/tmp/x", 512)
    rw [hval]
  exact ⟨hp, c9_parsed_sizes_nonneg.2 duLineWhole (r"/tmp/x") 512 hp⟩

/-! ## Claim C1: bucket key correctness -/

theorem classify_file_mem (p : String) :
    classify_file p = cacheStr ∨ classify_file p = temporaryStr
  ∨ classify_file p = logStr ∨ classify_file p = otherStr := by
  unfold classify_file
  split_ifs <;> simp

theorem bucketGet_addToBucket (m : BucketMap) (k k' : List String) (r : FileRec) :
    bucketGet (addToBucket m k r) k' =
      if k' = k then bucketGet m k' ++ [r] else bucketGet m k' := by
  induction m with
  | nil =>
    by_cases h : k' = k <;> simp [addToBucket, bucketGet, h]
    · intro h2
      exact absurd h2.symm h
  | cons pr rest ih =>
    by_cases hpk : pr.1 = k
    · by_cases hk : k' = k
      · simp [addToBucket, bucketGet, hpk, hk]
      · have hpk2 : ¬ pr.1 = k' := fun hh => hk (hh ▸ hpk ▸ rfl)
        have hk2 : ¬ k = k' := fun hh => hk hh.symm
        simp only [addToBucket, bucketGet, hpk, if_pos rfl, if_neg hk2]
        rw [if_neg (fun hh : k' = k => hk hh)]
    · by_cases hpk2 : pr.1 = k'
      · have hk : ¬ k' = k := fun hh => hpk (hpk2.trans hh)
        simp [addToBucket, bucketGet, hpk, hpk2, hk]
      · simp [addToBucket, bucketGet, hpk, hpk2, ih]

theorem insertStrAsc_perm (x : String) (l : List String) :
    List.Perm (insertStrAsc x l) (x :: l) := by
  induction l with
  | nil => exact List.Perm.refl _
  | cons y ys ih =>
    unfold insertStrAsc
    by_cases h : strLtB x.data y.data
    · rw [if_pos h]
    · rw [if_neg h]
      exact (List.Perm.cons y ih).trans (List.Perm.swap x y ys)

theorem sortStrs_perm (l : List String) : List.Perm (sortStrs l) l := by
  induction l with
  | nil => exact List.Perm.refl _
  | cons x xs ih =>
    exact (insertStrAsc_perm x (sortStrs xs)).trans (List.Perm.cons x ih)

theorem mem_tagsOf (p : String) (size : ℕ) (old : Bool) (t : String) :
    t ∈ tagsOf p size old ↔
      ((t = largeStr ∧ MIN_SIZE_BYTES ≤ size) ∨ (t = oldStr ∧ old = true)
        ∨ (t = classify_file p ∧ classify_file p ≠ otherStr)) := by
  unfold tagsOf
  split_ifs <;> simp [*]

theorem tagsOf_ne_nil (p : String) (size : ℕ) (old : Bool)
    (h : MIN_SIZE_BYTES ≤ size ∨ old = true ∨ classify_file p ≠ otherStr) :
    tagsOf p size old ≠ [] := by
  unfold tagsOf
  rcases h with h | h | h
  · rw [if_pos h]; simp
  · rw [h]; simp
  · rw [if_pos h]; simp

theorem sortStrs_tagsOf_sorted (p : String) (size : ℕ) (old : Bool) :
    (sortStrs (tagsOf p size old)).Nodup
  ∧ List.Pairwise (fun a b => strLtB a.data b.data = true) (sortStrs (tagsOf p size old)) := by
  rcases classify_file_mem p with hc | hc | hc | hc <;>
    by_cases hL : MIN_SIZE_BYTES ≤ size <;>
    cases old <;>
    simp only [tagsOf, hc, hL, if_true, if_false, if_pos, if_neg] <;>
    norm_num <;>
    decide

/-- C1: for every regular file recorded during the suggestion walk, the
file is appended to exactly one bucket (the record is appended to the
bucket keyed by the sorted tag tuple and every other bucket is
unchanged), the key is the sorted, duplicate-free tuple containing
exactly the tags the file satisfies (Large iff the size reaches the
threshold, Old iff the age classifier returned true, plus the path
classification when it is not Other), and a file satisfying none of the
three criteria is never stored in any bucket. -/
theorem c1_bucket_key_exact (m : BucketMap) (p : String) (size : ℕ) (old : Bool) :
    ((¬ MIN_SIZE_BYTES ≤ size) ∧ old = false ∧ classify_file p = otherStr →
      processFile m p size old = m)
  ∧ ((MIN_SIZE_BYTES ≤ size ∨ old = true ∨ classify_file p ≠ otherStr) →
      (processFile m p size old =
          addToBucket m (sortStrs (tagsOf p size old)) ⟨p, size⟩
        ∧ (sortStrs (tagsOf p size old)).Nodup
        ∧ List.Pairwise (fun a b => strLtB a.data b.data = true)
            (sortStrs (tagsOf p size old))
        ∧ ∀ t, (t ∈ sortStrs (tagsOf p size old) ↔
            ((t = largeStr ∧ MIN_SIZE_BYTES ≤ size) ∨ (t = oldStr ∧ old = true)
              ∨ (t = classify_file p ∧ classify_file p ≠ otherStr)))))
  ∧ (∀ k k' r, bucketGet (addToBucket m k r) k' =
      if k' = k then bucketGet m k' ++ [r] else bucketGet m k') := by
  refine ⟨?_, ?_, fun k k' r => bucketGet_addToBucket m k k' r⟩
  · rintro ⟨h1, h2, h3⟩
    unfold processFile
    rw [if_neg]
    push_neg
    exact ⟨by omega, by simp [h2], h3⟩
  · intro h
    refine ⟨?_, (sortStrs_tagsOf_sorted p size old).1,
      (sortStrs_tagsOf_sorted p size old).2, fun t => ?_⟩
    · unfold processFile
      rw [if_pos h, if_pos (tagsOf_ne_nil p size old h)]
    · rw [List.Perm.mem_iff (sortStrs_perm (tagsOf p size old))]
      exact mem_tagsOf p size old t

/-- Witness for C1: a small log file lands in exactly the Log bucket,
and a file satisfying no criterion is not stored. -/
theorem c1_bucket_key_exact_witness :
    processFile [] (r"/a/x.log") 5 false =
      addToBucket [] (sortStrs (tagsOf (r"/a/x.log") 5 false)) ⟨r"/a/x.log", 5⟩
  ∧ (logStr ∈ sortStrs (tagsOf (r"/a/x.log") 5 false) ↔
      ((logStr = largeStr ∧ MIN_SIZE_BYTES ≤ 5) ∨ (logStr = oldStr ∧ false = true)
        ∨ (logStr = classify_file (r"/a/x.log")
            ∧ classify_file (r"/a/x.log") ≠ otherStr)))
  ∧ processFile [] (r"/a/notes.txt") 7 false = [] :=
  ⟨((c1_bucket_key_exact [] (r"/a/x.log") 5 false).2.1
      (Or.inr (Or.inr (by decide)))).1,
   ((c1_bucket_key_exact [] (r"/a/x.log") 5 false).2.1
      (Or.inr (Or.inr (by decide)))).2.2.2 logStr,
   (c1_bucket_key_exact [] (r"/a/notes.txt") 7 false).1
      ⟨by decide, rfl, by decide⟩⟩

/-! ## Claim C10: traversal pruning -/

theorem removeFirstByName_subset (n : String) (l : List (String × List FSEntry))
    (p : String × List FSEntry) (h : p ∈ removeFirstByName n l) : p ∈ l := by
  induction l with
  | nil => exact absurd h (by simp [removeFirstByName])
  | cons q rest ih =>
    unfold removeFirstByName at h
    by_cases hq : q.1 = n
    · rw [if_pos hq] at h
      exact List.mem_cons_of_mem q h
    · rw [if_neg hq] at h
      rcases List.mem_cons.1 h with h | h
      · exact h ▸ List.mem_cons_self q rest
      · exact List.mem_cons_of_mem q (ih h)

theorem pruneTrash_subset (l : List (String × List FSEntry))
    (p : String × List FSEntry) (h : p ∈ pruneTrash l) : p ∈ l := by
  unfold pruneTrash at h
  split_ifs at h
  · exact removeFirstByName_subset _ _ _ h
  · exact h

theorem pruneContainers_subset (home cur : String) (l : List (String × List FSEntry))
    (p : String × List FSEntry) (h : p ∈ pruneContainers home cur l) : p ∈ l := by
  unfold pruneContainers at h
  split_ifs at h
  · exact removeFirstByName_subset _ _ _ h
  · exact h
  · exact h

theorem prunePairs_keep (home cur : String) (ds : List (String × List FSEntry))
    (p : String × List FSEntry) (h : p ∈ prunePairs home cur ds) :
    keepDirName p.1 = true := by
  unfold prunePairs at h
  have h2 : p ∈ ds.filter (fun q => keepDirName q.1) :=
    pruneContainers_subset home cur _ p (pruneTrash_subset _ p h)
  exact (List.mem_filter.1 h2).2

theorem walkNodeF_segs_kept (fuel : ℕ) :
    ∀ (home cur : String) (es : List FSEntry) (segs : List String) (nm : String)
      (sz : ℕ) (od : Bool), (segs, nm, sz, od) ∈ walkNodeF fuel home cur es →
      ∀ d ∈ segs, keepDirName d = true := by
  induction fuel with
  | zero => intro home cur es segs nm sz od h; exact absurd h (by simp [walkNodeF])
  | succ fuel ih =>
    intro home cur es segs nm sz od h d hd
    unfold walkNodeF at h
    rcases List.mem_append.1 h with h | h
    · rcases List.mem_map.1 h with ⟨f, _, hf⟩
      injection hf with hsegs hrest
      rw [← hsegs] at hd
      exact absurd hd (by simp)
    · rcases List.mem_flatMap.1 h with ⟨p, hp, hmem⟩
      rcases List.mem_map.1 hmem with ⟨w, hw, hww⟩
      injection hww with hseg hrest
      rw [← hseg] at hd
      rcases List.mem_cons.1 hd with hd | hd
      · rw [hd]
        exact prunePairs_keep home cur (dirPairsOf es) p hp
      · have hw2 : (w.1, w.2.1, w.2.2.1, w.2.2.2) ∈ walkNodeF fuel home (joinPath cur p.1) p.2 := by
          have : w = (w.1, w.2.1, w.2.2.1, w.2.2.2) := rfl
          rw [← this]
          exact hw
        exact ih home (joinPath cur p.1) p.2 w.1 w.2.1 w.2.2.1 w.2.2.2 hw2 d hd

theorem mem_bucketGet_processFile (m : BucketMap) (p : String) (sz : ℕ) (od : Bool)
    (k : List String) (r : FileRec) (h : r ∈ bucketGet (processFile m p sz od) k) :
    r ∈ bucketGet m k ∨ r = ⟨p, sz⟩ := by
  unfold processFile at h
  split_ifs at h
  · rw [bucketGet_addToBucket] at h
    split_ifs at h
    · rcases List.mem_append.1 h with h | h
      · exact Or.inl h
      · exact Or.inr (by simpa using h)
    · exact Or.inl h
  · exact Or.inl h
  · exact Or.inl h

theorem mem_buildBuckets (fs : List (String × ℕ × Bool)) :
    ∀ (m : BucketMap) (k : List String) (r : FileRec),
      r ∈ bucketGet (buildBuckets fs m) k →
      (∃ k2, r ∈ bucketGet m k2) ∨ ∃ f ∈ fs, r = FileRec.mk f.1 f.2.1 := by
  induction fs with
  | nil => intro m k r h; exact Or.inl ⟨k, h⟩
  | cons f rest ih =>
    intro m k r h
    rcases ih (processFile m f.1 f.2.1 f.2.2) k r h with ⟨k2, h2⟩ | ⟨g, hg, hr⟩
    · rcases mem_bucketGet_processFile m f.1 f.2.1 f.2.2 k2 r h2 with h3 | h3
      · exact Or.inl ⟨k2, h3⟩
      · exact Or.inr ⟨f, List.mem_cons_self f rest, h3⟩
    · exact Or.inr ⟨g, List.mem_cons_of_mem f hg, hr⟩

/-- C10: during the suggestion walk, subdirectories whose name begins
with a dot or a dollar sign, or whose name is exactly `tmp`, are pruned
before descent at every depth below a scan root; therefore every record
found in any suggestion bucket comes from a walk entry all of whose
directory segments survive that prune, so no file whose path passes
through such a directory is ever added to a bucket. -/
theorem c10_pruned_dirs_never_bucketed (fuel : ℕ) (home : String)
    (roots : List (String × List FSEntry)) (k : List String) (r : FileRec)
    (h : r ∈ bucketGet (runSuggestionWalk fuel home roots) k) :
    ∃ root es segs nm sz od,
      (root, es) ∈ roots
      ∧ (segs, nm, sz, od) ∈ walkNodeF fuel home root es
      ∧ r = FileRec.mk (pathOfRec root segs nm) sz
      ∧ ∀ d ∈ segs, strStartsB dotStr d = false ∧ strStartsB dollarStr d = false
          ∧ d ≠ tmpStr := by
  unfold runSuggestionWalk at h
  rcases mem_buildBuckets _ [] k r h with ⟨k2, h2⟩ | ⟨f, hf, hr⟩
  · exact absurd h2 (by simp [bucketGet])
  · unfold scanFiles at hf
    rcases List.mem_flatMap.1 hf with ⟨rp, hrp, hmem⟩
    rcases List.mem_map.1 hmem with ⟨w, hw, hww⟩
    refine ⟨rp.1, rp.2, w.1, w.2.1, w.2.2.1, w.2.2.2, hrp, ?_, ?_, ?_⟩
    · exact hw
    · rw [hr, ← hww]
    · intro d hd
      have hk := walkNodeF_segs_kept fuel home rp.1 rp.2 w.1 w.2.1 w.2.2.1 w.2.2.2 hw d hd
      unfold keepDirName at hk
      simp only [Bool.and_eq_true, Bool.not_eq_true', Bool.or_eq_false_iff,
        decide_eq_false_iff_not] at hk
      exact ⟨hk.1.1, hk.1.2, hk.2⟩

/-- Witness for C10: in a sample tree the old log file below `/tmp/sub`
is bucketed, and the theorem yields its provenance with every segment
surviving the prune. -/
theorem c10_pruned_dirs_never_bucketed_witness :
    (FileRec.mk (r"/tmp/sub/x.log") 5 ∈
      bucketGet (runSuggestionWalk 2 (r"/Users/u") sampleRoots) [logStr, oldStr])
  ∧ ∃ root es segs nm sz od,
      (root, es) ∈ sampleRoots
      ∧ (segs, nm, sz, od) ∈ walkNodeF 2 (r"/Users/u") root es
      ∧ FileRec.mk (r"/tmp/sub/x.log") 5 = FileRec.mk (pathOfRec root segs nm) sz
      ∧ ∀ d ∈ segs, strStartsB dotStr d = false ∧ strStartsB dollarStr d = false
          ∧ d ≠ tmpStr :=
  ⟨by decide,
    c10_pruned_dirs_never_bucketed 2 (r"/Users/u") sampleRoots [logStr, oldStr]
      (FileRec.mk (r"/tmp/sub/x.log") 5) (by decide)⟩

/-! ## Claim C2: the query operations never fail on missing data -/

/-- C2: the four query operations are total functions of the scan index
(they take the index as a value and return a result, never touching any
state, which embeds that the Python functions only read the module
dictionaries and never assign to them), and on missing or empty data
each returns its explicit no-data message rather than failing. -/
theorem c2_queries_no_data (idx : ScanIndex) (n : ℤ) (filt : Option String)
    (limit : ℤ) (q : String) :
    (idx.disk_summary = none →
      get_overall_disk_info idx = QueryOut.message noSummaryMsg)
  ∧ (idx.directory_sizes = [] →
      get_top_n_directories idx n = QueryOut.message noDirMsg)
  ∧ (idx.suggested = [] →
      get_suggested_files idx filt limit = QueryOut.message noSugMsg)
  ∧ (idx.directory_sizes = [] ∧ idx.suggested = [] →
      search_paths idx q = QueryOut.message (noPathsPre ++ q ++ noPathsSuf)) := by
  refine ⟨?_, ?_, ?_, ?_⟩
  · intro h
    unfold get_overall_disk_info
    rw [h]
  · intro h
    unfold get_top_n_directories
    rw [if_pos h]
  · intro h
    unfold get_suggested_files
    rw [if_pos h]
  · rintro ⟨h1, h2⟩
    unfold search_paths
    rw [h1, h2]
    rfl

/-- Witness for C2 at the empty index with arbitrary concrete arguments. -/
theorem c2_queries_no_data_witness :
    get_overall_disk_info emptyIndex = QueryOut.message noSummaryMsg
  ∧ get_top_n_directories emptyIndex 3 = QueryOut.message noDirMsg
  ∧ get_suggested_files emptyIndex (some (r"Cache")) 10 = QueryOut.message noSugMsg
  ∧ search_paths emptyIndex (r"xcode") =
      QueryOut.message (noPathsPre ++ (r"xcode") ++ noPathsSuf) :=
  ⟨(c2_queries_no_data emptyIndex 3 (some (r"Cache")) 10 (r"xcode")).1 rfl,
   (c2_queries_no_data emptyIndex 3 (some (r"Cache")) 10 (r"xcode")).2.1 rfl,
   (c2_queries_no_data emptyIndex 3 (some (r"Cache")) 10 (r"xcode")).2.2.1 rfl,
   (c2_queries_no_data emptyIndex 3 (some (r"Cache")) 10 (r"xcode")).2.2.2 ⟨rfl, rfl⟩⟩

/-! ## Claim C5: top-N directories -/

theorem stable_filter_sortDescBy {α : Type} (ge : α → α → Bool) (p : α → Bool)
    (l : List α) (hp : ∀ a b, p a = true → p b = true → ge a b = true) :
    (sortDescBy ge l).filter p = l.filter p := by
  unfold sortDescBy
  have hperm : List.Perm ((List.insertionSort (fun a b => ge a b = true) l).filter p)
      (l.filter p) :=
    (List.perm_insertionSort (fun a b => ge a b = true) l).filter p
  have hpair : (l.filter p).Pairwise (fun a b => ge a b = true) := by
    apply List.pairwise_iff_forall_sublist.2
    intro a b hab
    have ha : p a = true ∧ p b = true := by
      have h1 : a ∈ l.filter p := hab.subset (by simp)
      have h2 : b ∈ l.filter p := hab.subset (by simp)
      exact ⟨(List.mem_filter.1 h1).2, (List.mem_filter.1 h2).2⟩
    exact hp a b ha.1 ha.2
  have hsub : List.Sublist (l.filter p) (List.insertionSort (fun a b => ge a b = true) l) :=
    List.sublist_insertionSort hpair (List.filter_sublist l)
  have hsub2 : List.Sublist ((l.filter p).filter p)
      ((List.insertionSort (fun a b => ge a b = true) l).filter p) := hsub.filter p
  rw [List.filter_filter] at hsub2
  have hpp : (fun a => p a && p a) = p := by
    funext a
    cases hpa : p a <;> simp [hpa]
  rw [hpp] at hsub2
  exact (hsub2.eq_of_length hperm.length_eq.symm).symm

theorem sortDirEntries_sorted (l : List (String × ℚ)) :
    List.Pairwise (fun a b : String × ℚ => b.2 ≤ a.2) (sortDirEntries l) := by
  unfold sortDirEntries sortDescBy
  haveI : IsTotal (String × ℚ) (fun a b => dirGe a b = true) :=
    ⟨fun a b => by simpa [dirGe] using (le_total b.2 a.2)⟩
  haveI : IsTrans (String × ℚ) (fun a b => dirGe a b = true) :=
    ⟨fun a b c hab hbc => by
      simp only [dirGe, decide_eq_true_eq] at hab hbc ⊢
      exact hbc.trans hab⟩
  have hs := List.sorted_insertionSort (fun a b => dirGe a b = true) l
  exact hs.imp (fun h => by simpa [dirGe, decide_eq_true_eq] using h)

/-- C5 counterexample: with the sorted two-entry state, the call with
`n = -1` returns one entry (Python slicing drops the last entry), while
the claim demands length `min(-1, 2) = -1`; and on the empty state the
operation returns a message, not a sequence. -/
theorem c5_top_n_counterexample :
    (pySlice (-1) sampleIdxDirs.directory_sizes).length = 1
  ∧ ¬ ((1 : ℤ) = min (-1 : ℤ) 2)
  ∧ get_top_n_directories sampleIdxDirs (-1) =
      QueryOut.dirTable ((pySlice (-1) sampleIdxDirs.directory_sizes).map
        (fun pr => (pr.1, convert_bytes_to_human_readable (some pr.2))))
  ∧ get_top_n_directories emptyIndex 5 = QueryOut.message noDirMsg := by
  refine ⟨by decide, by decide, ?_, ?_⟩
  · unfold get_top_n_directories
    rw [if_neg (by decide)]
  · exact (c2_queries_no_data emptyIndex 5 none 10 emptyStr).2.1 rfl

/-- C5 amended: for every integer `n ≥ 0` and every non-empty directory
list as built by the scan (the stable descending sort of the probe
results), `get_top_n_directories` returns the first `n` entries, a
sequence sorted descending by size of length `min(n, number of probed
roots)`, and the sort preserves the original scan order among entries
of equal size (stability). -/
theorem c5_top_n_directories (s : Option DiskSummary) (b : BucketMap)
    (raw : List (String × ℚ)) (n : ℤ) (hn : 0 ≤ n)
    (hne : sortDirEntries raw ≠ []) :
    get_top_n_directories ⟨s, sortDirEntries raw, b⟩ n =
      QueryOut.dirTable ((pySlice n (sortDirEntries raw)).map
        (fun pr => (pr.1, convert_bytes_to_human_readable (some pr.2))))
  ∧ (pySlice n (sortDirEntries raw)).length = min n.toNat (sortDirEntries raw).length
  ∧ (sortDirEntries raw).length = raw.length
  ∧ List.Pairwise (fun a b : String × ℚ => b.2 ≤ a.2) (pySlice n (sortDirEntries raw))
  ∧ ∀ v : ℚ, (sortDirEntries raw).filter (fun e => e.2 = v) =
      raw.filter (fun e => e.2 = v) := by
  refine ⟨?_, ?_, ?_, ?_, ?_⟩
  · unfold get_top_n_directories
    rw [if_neg hne]
  · unfold pySlice
    rw [if_pos hn]
    exact List.length_take _ _
  · exact (List.perm_insertionSort _ raw).length_eq
  · unfold pySlice
    rw [if_pos hn]
    exact (sortDirEntries_sorted raw).sublist (List.take_sublist _ _)
  · intro v
    exact stable_filter_sortDescBy dirGe (fun e => decide (e.2 = v)) raw
      (fun a c ha hc => by
        simp only [decide_eq_true_eq] at ha hc
        simp [dirGe, ha, hc])

/-- Witness for C5 (amended) on the two-entry raw sample with `n = 1`. -/
theorem c5_top_n_directories_witness :
    (0 : ℤ) ≤ 1
  ∧ sortDirEntries sampleDirsRaw ≠ []
  ∧ (pySlice 1 (sortDirEntries sampleDirsRaw)).length =
      min (1 : ℤ).toNat (sortDirEntries sampleDirsRaw).length :=
  ⟨by decide, by decide,
    (c5_top_n_directories none [] sampleDirsRaw 1 (by decide) (by decide)).2.1⟩

/-! ## Claim C6: tag filtering of suggestions -/

theorem buildResults_eq_filterMap (m : BucketMap) (req : List String) (limit : ℤ)
    (keys : List (List String)) :
    buildResults m req limit keys = keys.filterMap (fun k =>
      if req ≠ [] ∧ reqMatch req (spaceJoin k) = false then none
      else some (spaceJoin k, truncFormat limit (bucketGet m k))) := by
  have haux : ∀ (ks : List (List String)) (acc : List (String × List (String × String))),
      ks.foldl (fun acc k =>
        if req ≠ [] ∧ reqMatch req (spaceJoin k) = false then acc
        else acc ++ [(spaceJoin k, truncFormat limit (bucketGet m k))]) acc =
      acc ++ ks.filterMap (fun k =>
        if req ≠ [] ∧ reqMatch req (spaceJoin k) = false then none
        else some (spaceJoin k, truncFormat limit (bucketGet m k))) := by
    intro ks
    induction ks with
    | nil => intro acc; simp
    | cons k ks ih =>
      intro acc
      by_cases hc : req ≠ [] ∧ reqMatch req (spaceJoin k) = false
      · simp only [List.foldl_cons, List.filterMap_cons, if_pos hc]
        exact ih acc
      · simp only [List.foldl_cons, List.filterMap_cons, if_neg hc]
        rw [ih (acc ++ [(spaceJoin k, truncFormat limit (bucketGet m k))])]
        simp
  exact haux keys []

theorem splitOnChar_ne_nil (sep : Char) (l : List Char) : splitOnChar sep l ≠ [] := by
  cases l with
  | nil => simp [splitOnChar]
  | cons c rest =>
    unfold splitOnChar
    rcases h : splitOnChar sep rest with _ | ⟨piece, pieces⟩
    · simp
    · by_cases hc : c = sep <;> simp [hc]

theorem parseRequested_ne_nil (f : String) (hf : ¬ f = emptyStr) :
    parseRequested (some f) ≠ [] := by
  show (if f = emptyStr then []
    else (splitOnChar ',' f.data).map (fun piece => String.mk (capitalizeL (stripWS piece)))) ≠ []
  rw [if_neg hf]
  intro h
  exact splitOnChar_ne_nil ',' f.data (List.map_eq_nil_iff.1 h)

theorem bucketGet_of_mem_nodup (m : BucketMap) (k : List String) (items : List FileRec)
    (hnd : (m.map Prod.fst).Nodup) (h : (k, items) ∈ m) : bucketGet m k = items := by
  induction m with
  | nil => exact absurd h (by simp)
  | cons p rest ih =>
    rcases List.mem_cons.1 h with h | h
    · rw [← h]
      unfold bucketGet
      rw [if_pos rfl]
    · have hne : ¬ p.1 = k := by
        intro hk
        have : k ∈ rest.map Prod.fst := List.mem_map.2 ⟨(k, items), h, rfl⟩
        rw [← hk] at this
        exact (List.nodup_cons.1 hnd).1 this
      unfold bucketGet
      rw [if_neg hne]
      exact ih (List.nodup_cons.1 hnd).2 h

theorem mem_of_key_mem (m : BucketMap) (k : List String)
    (h : k ∈ m.map Prod.fst) : (k, bucketGet m k) ∈ m := by
  induction m with
  | nil => exact absurd h (by simp)
  | cons p rest ih =>
    by_cases hk : p.1 = k
    · unfold bucketGet
      rw [if_pos hk, ← hk]
      exact List.mem_cons_self p rest
    · unfold bucketGet
      rw [if_neg hk]
      rcases List.mem_map.1 h with ⟨pr, hpr, hpk⟩
      rcases List.mem_cons.1 hpr with hh | hh
      · exact absurd (hh ▸ hpk) hk
      · exact List.mem_cons_of_mem p (ih (List.mem_map.2 ⟨pr, hh, hpk⟩))

theorem pySlice_sublist {α : Type} (n : ℤ) (xs : List α) :
    List.Sublist (pySlice n xs) xs := by
  unfold pySlice
  split_ifs <;> exact List.take_sublist _ _

theorem sortRecsDesc_sorted (l : List FileRec) :
    List.Pairwise (fun a b : FileRec => b.size ≤ a.size) (sortDescBy recGe l) := by
  unfold sortDescBy
  haveI : IsTotal FileRec (fun a b => recGe a b = true) :=
    ⟨fun a b => by simpa [recGe] using (le_total b.size a.size)⟩
  haveI : IsTrans FileRec (fun a b => recGe a b = true) :=
    ⟨fun a b c hab hbc => by
      simp only [recGe, decide_eq_true_eq] at hab hbc ⊢
      exact hbc.trans hab⟩
  have hs := List.sorted_insertionSort (fun a b => recGe a b = true) l
  exact hs.imp (fun h => by simpa [recGe, decide_eq_true_eq] using h)

/-- C6 counterexample: the claim promises a case-insensitive substring
match of each requested tag against the bucket name, so the request
`arge` (a case-insensitive substring of `Large`) should return the
`(Large,)` bucket; the code capitalizes the request to `Arge` and then
matches case-sensitively, so it returns the no-match result instead. -/
theorem c6_suggested_files_filter_counterexample :
    get_suggested_files sampleIdxLarge (some (r"arge")) 10 = QueryOut.noMatch (r"arge")
  ∧ specCaseInsensitiveSubstr (r"arge") (spaceJoin [largeStr]) = true :=
  ⟨by decide, by decide⟩

/-- C6 amended: for a non-empty tag filter over a non-empty bucket map
with distinct keys and at least one matching bucket, `get_suggested_files`
returns exactly the buckets whose space-joined name contains, as a
case-sensitive substring, the capitalization (first letter upper-cased,
rest lower-cased) of at least one comma-separated requested tag; each
returned bucket is its item list sorted descending by size and truncated
to `limit`, and every truncated list is sorted descending by size. -/
theorem c6_suggested_files_filter (s : Option DiskSummary) (dirs : List (String × ℚ))
    (buckets : BucketMap) (f : String) (limit : ℤ)
    (hb : ¬ buckets = []) (hf : ¬ f = emptyStr)
    (hnd : (buckets.map Prod.fst).Nodup)
    (hm : ∃ pr ∈ buckets, reqMatch (parseRequested (some f)) (spaceJoin pr.1) = true) :
    ∃ res, get_suggested_files ⟨s, dirs, buckets⟩ (some f) limit = QueryOut.sugTable res
      ∧ (∀ name fs, ((name, fs) ∈ res ↔
          ∃ k items, (k, items) ∈ buckets ∧ name = spaceJoin k
            ∧ reqMatch (parseRequested (some f)) name = true
            ∧ fs = truncFormat limit items))
      ∧ ∀ items : List FileRec,
          List.Pairwise (fun a b : FileRec => b.size ≤ a.size)
            (pySlice limit (sortDescBy recGe items)) := by
  have hreq := parseRequested_ne_nil f hf
  have hperm : List.Perm (sortDescBy keyGe (buckets.map Prod.fst)) (buckets.map Prod.fst) :=
    List.perm_insertionSort _ _
  have hres := buildResults_eq_filterMap buckets (parseRequested (some f)) limit
    (sortDescBy keyGe (buckets.map Prod.fst))
  obtain ⟨pr, hpr, hprm⟩ := hm
  have hkin : pr.1 ∈ sortDescBy keyGe (buckets.map Prod.fst) :=
    hperm.mem_iff.2 (List.mem_map.2 ⟨pr, hpr, rfl⟩)
  have hne : buildResults buckets (parseRequested (some f)) limit
      (sortDescBy keyGe (buckets.map Prod.fst)) ≠ [] := by
    rw [hres]
    intro hnil
    have hprnone := (List.filterMap_eq_nil_iff.1 hnil) pr.1 hkin
    rw [if_neg (fun hc => by rw [hprm] at hc; exact Bool.noConfusion hc.2)] at hprnone
    exact Option.noConfusion hprnone
  obtain ⟨r0, rs0, hrr⟩ : ∃ r0 rs0, buildResults buckets (parseRequested (some f)) limit
      (sortDescBy keyGe (buckets.map Prod.fst)) = r0 :: rs0 := by
    rcases h2 : buildResults buckets (parseRequested (some f)) limit
        (sortDescBy keyGe (buckets.map Prod.fst)) with _ | ⟨a, b⟩
    · exact absurd h2 hne
    · exact ⟨a, b, rfl⟩
  refine ⟨r0 :: rs0, ?_, ?_, ?_⟩
  · show (if (buckets : BucketMap) = [] then QueryOut.message noSugMsg
      else
        match buildResults buckets (parseRequested (some f)) limit
            (sortDescBy keyGe (buckets.map Prod.fst)) with
        | [] =>
          if parseRequested (some f) ≠ [] then QueryOut.noMatch f
          else QueryOut.message noSugMsg
        | r :: rs =>
          if parseRequested (some f) = [] then
            QueryOut.sugSummary ((buckets.map (fun b => b.2.length)).sum)
              (buckets.map (fun b => (spaceJoin b.1, b.2.length)))
          else QueryOut.sugTable (r :: rs)) = QueryOut.sugTable (r0 :: rs0)
    rw [if_neg hb, hrr]
    exact if_neg hreq
  · intro name fs
    rw [← hrr, hres, List.mem_filterMap]
    constructor
    · rintro ⟨k, hk, hsome⟩
      by_cases hc : parseRequested (some f) ≠ []
          ∧ reqMatch (parseRequested (some f)) (spaceJoin k) = false
      · rw [if_pos hc] at hsome
        exact Option.noConfusion hsome
      · rw [if_neg hc] at hsome
        have h1 := Option.some.inj hsome
        have hn1 : spaceJoin k = name := congrArg Prod.fst h1
        have hn2 : truncFormat limit (bucketGet buckets k) = fs := congrArg Prod.snd h1
        have hmt : reqMatch (parseRequested (some f)) (spaceJoin k) = true := by
          rcases Bool.eq_false_or_eq_true (reqMatch (parseRequested (some f)) (spaceJoin k))
            with hh | hh
          · exact hh
          · exact absurd ⟨hreq, hh⟩ hc
        exact ⟨k, bucketGet buckets k, mem_of_key_mem buckets k (hperm.mem_iff.1 hk),
          hn1.symm, hn1.symm ▸ hmt, hn2.symm⟩
    · rintro ⟨k, items, hkin2, hname, hmatch, hfs⟩
      refine ⟨k, hperm.mem_iff.2 (List.mem_map.2 ⟨(k, items), hkin2, rfl⟩), ?_⟩
      rw [if_neg (fun hc => by rw [← hname, hmatch] at hc; exact Bool.noConfusion hc.2)]
      rw [bucketGet_of_mem_nodup buckets k items hnd hkin2, ← hname, ← hfs]
  · intro items
    exact (sortRecsDesc_sorted items).sublist (pySlice_sublist limit _)

/-- Witness for C6 (amended): the scenario of the claim, filter `Cache`
over a map with buckets `(Cache,)` and `(Cache, Large)`. -/
theorem c6_suggested_files_filter_witness :
    ∃ res, get_suggested_files sampleIdxCache (some (r"Cache")) 10 = QueryOut.sugTable res
      ∧ (∀ name fs, ((name, fs) ∈ res ↔
          ∃ k items, (k, items) ∈ sampleBucketsCache ∧ name = spaceJoin k
            ∧ reqMatch (parseRequested (some (r"Cache"))) name = true
            ∧ fs = truncFormat 10 items))
      ∧ ∀ items : List FileRec,
          List.Pairwise (fun a b : FileRec => b.size ≤ a.size)
            (pySlice 10 (sortDescBy recGe items)) :=
  c6_suggested_files_filter none [] sampleBucketsCache (r"Cache") 10
    (by decide) (by decide) (by decide)
    ⟨([cacheStr], [FileRec.mk (r"/c/one") 10]), by decide, by decide⟩

/-! ## Decimal rendering and parsing lemmas (for C8 and C4) -/

theorem valRev_natDigitsRevF (fuel : ℕ) :
    ∀ n : ℕ, n ≤ fuel → valRev (natDigitsRevF fuel n) = n := by
  induction fuel with
  | zero => intro n h; interval_cases n; rfl
  | succ fuel ih =>
    intro n h
    unfold natDigitsRevF
    by_cases hn : n = 0
    · rw [if_pos hn, hn]; rfl
    · rw [if_neg hn]
      unfold valRev
      have hlt : n / 10 ≤ fuel := by omega
      rw [ih (n / 10) hlt]
      omega

theorem natDigitsRevF_digits_lt (fuel : ℕ) :
    ∀ n : ℕ, ∀ d ∈ natDigitsRevF fuel n, d < 10 := by
  induction fuel with
  | zero => intro n d h; exact absurd h (by simp [natDigitsRevF])
  | succ fuel ih =>
    intro n d h
    unfold natDigitsRevF at h
    by_cases hn : n = 0
    · rw [if_pos hn] at h; exact absurd h (by simp)
    · rw [if_neg hn] at h
      rcases List.mem_cons.1 h with h | h
      · omega
      · exact ih (n / 10) d h

theorem digitCh_toNat (d : ℕ) (h : d < 10) : (digitCh d).toNat = 48 + d := by
  interval_cases d <;> decide

theorem digitCh_isDigit (d : ℕ) (h : d < 10) : (digitCh d).isDigit = true := by
  interval_cases d <;> decide

theorem digitCh_toUpper (d : ℕ) (h : d < 10) : (digitCh d).toUpper = digitCh d := by
  interval_cases d <;> decide

theorem digitCh_ne_dot (d : ℕ) (h : d < 10) : ¬ digitCh d = '.' := by
  interval_cases d <;> decide

theorem foldl_reverse_valRev (L : List ℕ) :
    List.foldl (fun a d => a * 10 + d) 0 L.reverse = valRev L := by
  induction L with
  | nil => rfl
  | cons d ds ih =>
    rw [List.reverse_cons, List.foldl_append, ih]
    show valRev ds * 10 + d = d + 10 * valRev ds
    omega

theorem parseNatChars_map_digitCh (L : List ℕ) (hL : ∀ d ∈ L, d < 10) :
    parseNatChars (L.map digitCh) = List.foldl (fun a d => a * 10 + d) 0 L := by
  unfold parseNatChars
  rw [List.foldl_map]
  have haux : ∀ (M : List ℕ) (a : ℕ), (∀ d ∈ M, d < 10) →
      List.foldl (fun a d => a * 10 + ((digitCh d).toNat - 48)) a M =
      List.foldl (fun a d => a * 10 + d) a M := by
    intro M
    induction M with
    | nil => intro a _; rfl
    | cons d ds ih =>
      intro a hM
      simp only [List.foldl_cons]
      rw [digitCh_toNat d (hM d (List.mem_cons_self d ds))]
      have h48 : 48 + d - 48 = d := by omega
      rw [h48]
      exact ih _ (fun x hx => hM x (List.mem_cons_of_mem d hx))
  exact haux L 0 hL

theorem parseNatChars_renderNat (n : ℕ) : parseNatChars (renderNat n) = n := by
  unfold renderNat
  by_cases hn : n = 0
  · rw [if_pos hn, hn]; decide
  · rw [if_neg hn]
    have h1 : ∀ d ∈ (natDigitsRevF n n).reverse, d < 10 :=
      fun d hd => natDigitsRevF_digits_lt n n d (List.mem_reverse.1 hd)
    rw [parseNatChars_map_digitCh _ h1, foldl_reverse_valRev,
      valRev_natDigitsRevF n n le_rfl]

theorem renderNat_shape (n : ℕ) : ∀ c ∈ renderNat n, ∃ d, d < 10 ∧ c = digitCh d := by
  intro c hc
  unfold renderNat at hc
  by_cases hn : n = 0
  · rw [if_pos hn] at hc
    refine ⟨0, by omega, ?_⟩
    simpa [digitCh] using hc
  · rw [if_neg hn] at hc
    rcases List.mem_map.1 hc with ⟨d, hd, hdc⟩
    exact ⟨d, natDigitsRevF_digits_lt n n d (List.mem_reverse.1 hd), hdc.symm⟩

theorem renderNat_ne_nil (n : ℕ) : renderNat n ≠ [] := by
  unfold renderNat
  by_cases hn : n = 0
  · rw [if_pos hn]; simp
  · rw [if_neg hn]
    obtain ⟨m, rfl⟩ := Nat.exists_eq_succ_of_ne_zero hn
    unfold natDigitsRevF
    rw [if_neg hn]
    simp

theorem renderTwo_shape (r : ℕ) (h : r < 100) :
    ∀ c ∈ renderTwo r, ∃ d, d < 10 ∧ c = digitCh d := by
  intro c hc
  unfold renderTwo at hc
  rcases List.mem_cons.1 hc with hc | hc
  · exact ⟨r / 10, by omega, hc⟩
  · rcases List.mem_cons.1 hc with hc | hc
    · exact ⟨r % 10, by omega, hc⟩
    · exact absurd hc (by simp)

theorem parseNatChars_renderTwo (r : ℕ) (h : r < 100) :
    parseNatChars (renderTwo r) = r := by
  unfold renderTwo parseNatChars
  simp only [List.foldl_cons, List.foldl_nil]
  rw [digitCh_toNat (r / 10) (by omega), digitCh_toNat (r % 10) (by omega)]
  omega

/-! ## String plumbing lemmas for the round-trip -/

theorem takeWhile_append_stop (p : Char → Bool) (a : List Char) (c : Char) (b : List Char)
    (ha : ∀ x ∈ a, p x = true) (hc : p c = false) :
    (a ++ c :: b).takeWhile p = a := by
  induction a with
  | nil =>
    rw [List.nil_append, List.takeWhile_cons, if_neg (by simp [hc])]
  | cons x xs ih =>
    rw [List.cons_append, List.takeWhile_cons,
      if_pos (ha x (List.mem_cons_self x xs)),
      ih (fun y hy => ha y (List.mem_cons_of_mem x hy))]

theorem dropWhile_append_stop (p : Char → Bool) (a : List Char) (c : Char) (b : List Char)
    (ha : ∀ x ∈ a, p x = true) (hc : p c = false) :
    (a ++ c :: b).dropWhile p = c :: b := by
  induction a with
  | nil =>
    rw [List.nil_append, List.dropWhile_cons, if_neg (by simp [hc])]
  | cons x xs ih =>
    rw [List.cons_append, List.dropWhile_cons,
      if_pos (ha x (List.mem_cons_self x xs)),
      ih (fun y hy => ha y (List.mem_cons_of_mem x hy))]

theorem splitNumUnit_append (a b : List Char)
    (ha : ∀ c ∈ a, (c.isDigit || c = '.') = true)
    (hb : ∀ c ∈ b, (c.isDigit || c = '.') = false) :
    splitNumUnit (a ++ b) = (a, b) := by
  induction a with
  | nil =>
    simp only [List.nil_append]
    induction b with
    | nil => rfl
    | cons c bs ihb =>
      unfold splitNumUnit
      rw [ihb (fun x hx => hb x (List.mem_cons_of_mem c hx))]
      exact if_neg (by simp [hb c (List.mem_cons_self c bs)])
  | cons x xs iha =>
    simp only [List.cons_append]
    unfold splitNumUnit
    rw [iha (fun y hy => ha y (List.mem_cons_of_mem x hy))]
    exact if_pos (ha x (List.mem_cons_self x xs))

theorem stripWS_eq_self (l : List Char)
    (h1 : ∀ c, l.head? = some c → c.isWhitespace = false)
    (h2 : ∀ c, l.getLast? = some c → c.isWhitespace = false) :
    stripWS l = l := by
  unfold stripWS
  have hd : l.dropWhile Char.isWhitespace = l := by
    cases l with
    | nil => rfl
    | cons c cs =>
      rw [List.dropWhile_cons, if_neg (by simp [h1 c rfl])]
  rw [hd]
  have hd2 : l.reverse.dropWhile Char.isWhitespace = l.reverse := by
    cases hrev : l.reverse with
    | nil => rfl
    | cons c cs =>
      rw [List.dropWhile_cons, if_neg ?_]
      have hlast : l.getLast? = some c := by
        rw [← List.head?_reverse, hrev]
        rfl
      simp [h2 c hlast]
  rw [hd2, List.reverse_reverse]

theorem upperChars_eq_self (l : List Char) (h : ∀ c ∈ l, c.toUpper = c) :
    upperChars l = l := by
  unfold upperChars
  induction l with
  | nil => rfl
  | cons c cs ih =>
    simp only [List.map_cons, h c (List.mem_cons_self c cs)]
    rw [ih (fun x hx => h x (List.mem_cons_of_mem c hx))]

theorem pyFloatParts_render (i r : ℕ) (hr : r < 100) :
    pyFloatParts (renderNat i ++ '.' :: renderTwo r) = some (i, r, 2) := by
  unfold pyFloatParts
  have hdig : (renderNat i ++ '.' :: renderTwo r).any Char.isDigit = true := by
    obtain ⟨c, hc⟩ := List.exists_mem_of_ne_nil (renderNat i) (renderNat_ne_nil i)
    obtain ⟨d, hd10, rfl⟩ := renderNat_shape i c hc
    exact List.any_eq_true.2 ⟨digitCh d, List.mem_append_left _ hc, digitCh_isDigit d hd10⟩
  rw [if_neg (by simp [hdig])]
  have hnotdot : ∀ x ∈ renderNat i, (decide (x ≠ '.')) = true := by
    intro x hx
    obtain ⟨d, hd10, rfl⟩ := renderNat_shape i x hx
    simpa using digitCh_ne_dot d hd10
  have hdrop : List.dropWhile (fun c => decide (c ≠ '.')) (renderNat i ++ '.' :: renderTwo r) =
      '.' :: renderTwo r :=
    dropWhile_append_stop _ _ _ _ hnotdot (by simp)
  have htake : List.takeWhile (fun c => decide (c ≠ '.')) (renderNat i ++ '.' :: renderTwo r) =
      renderNat i :=
    takeWhile_append_stop _ _ _ _ hnotdot (by simp)
  rw [hdrop, htake]
  have hdot2 : ¬ ((renderTwo r).any fun c => decide (c = '.')) = true := by
    intro hany
    rcases List.any_eq_true.1 hany with ⟨c, hc, hcd⟩
    obtain ⟨d, hd10, rfl⟩ := renderTwo_shape r hr c hc
    exact digitCh_ne_dot d hd10 (by simpa using hcd)
  show (if ((renderTwo r).any fun c => decide (c = '.')) = true then none
    else some (parseNatChars (renderNat i), parseNatChars (renderTwo r), (renderTwo r).length)) =
    some (i, r, 2)
  rw [if_neg hdot2, parseNatChars_renderNat, parseNatChars_renderTwo r hr]
  rfl

theorem digitCh_not_ws (d : ℕ) (h : d < 10) : (digitCh d).isWhitespace = false := by
  interval_cases d <;> decide

theorem roundHE_nonneg (y : ℚ) (hy : 0 ≤ y) : 0 ≤ roundHE y := by
  unfold roundHE
  have hf : (0 : ℤ) ≤ ⌊y⌋ := Int.floor_nonneg.2 hy
  split_ifs <;> omega

theorem abs_roundHE_sub (y : ℚ) : |(roundHE y : ℚ) - y| ≤ 1 / 2 := by
  have h0 : (0 : ℚ) ≤ Int.fract y := Int.fract_nonneg y
  have h1 : Int.fract y < 1 := Int.fract_lt_one y
  have hfl : (⌊y⌋ : ℚ) = y - Int.fract y := by rw [Int.fract]; ring
  unfold roundHE
  split_ifs with ha hb hc
  · rw [hfl]
    have he : y - Int.fract y - y = -(Int.fract y) := by ring
    rw [he, abs_neg, abs_of_nonneg h0]
    linarith
  · push_cast
    rw [hfl]
    have he : y - Int.fract y + 1 - y = 1 - Int.fract y := by ring
    rw [he, abs_of_nonneg (by linarith)]
    linarith [not_lt.1 ha]
  · rw [hfl]
    have he : y - Int.fract y - y = -(Int.fract y) := by ring
    rw [he, abs_neg, abs_of_nonneg h0]
    exact not_lt.1 hb
  · push_cast
    rw [hfl]
    have he : y - Int.fract y + 1 - y = 1 - Int.fract y := by ring
    rw [he, abs_of_nonneg (by linarith)]
    linarith [not_lt.1 ha]

/-- Key round-trip step: parsing back the string `fmt2 q ++ " " ++ u`
for a unit-letter list `u` yields the rounded value scaled by the unit
selected by the parser. -/
theorem tobytes_fmt2_unit (q : ℚ) (u : List Char) (hu_ne : u ≠ [])
    (hund : ∀ c ∈ u, (c.isDigit || c = '.') = false)
    (huws : ∀ c ∈ u, c.isWhitespace = false)
    (huup : ∀ c ∈ u, c.toUpper = c) :
    convert_human_readable_to_bytes (fmt2 q ++ spaceStr ++ String.mk u) =
      (((roundHE (q * 100)).toNat : ℚ)) / 100 * 1024 ^ unitExp (' ' :: u) := by
  have hdata : (fmt2 q ++ spaceStr ++ String.mk u).data =
      (renderNat ((roundHE (q * 100)).toNat / 100)
        ++ '.' :: renderTwo ((roundHE (q * 100)).toNat % 100)) ++ ' ' :: u := by
    rw [String.data_append, String.data_append]
    show (fmt2 q).data ++ [ ' ' ] ++ u = _
    rw [List.append_assoc]
    rfl
  have hshape : ∀ c ∈ (renderNat ((roundHE (q * 100)).toNat / 100)
      ++ '.' :: renderTwo ((roundHE (q * 100)).toNat % 100)), c = '.' ∨ ∃ d, d < 10 ∧ c = digitCh d := by
    intro c hc
    rcases List.mem_append.1 hc with hc | hc
    · exact Or.inr (renderNat_shape _ c hc)
    · rcases List.mem_cons.1 hc with hc | hc
      · exact Or.inl hc
      · exact Or.inr (renderTwo_shape _ (Nat.mod_lt _ (by norm_num)) c hc)
  have hstrip : stripWS ((renderNat ((roundHE (q * 100)).toNat / 100)
      ++ '.' :: renderTwo ((roundHE (q * 100)).toNat % 100)) ++ ' ' :: u) =
      (renderNat ((roundHE (q * 100)).toNat / 100)
        ++ '.' :: renderTwo ((roundHE (q * 100)).toNat % 100)) ++ ' ' :: u := by
    apply stripWS_eq_self
    · intro c hc
      obtain ⟨x, xs, hxs⟩ := List.exists_cons_of_ne_nil
        (renderNat_ne_nil ((roundHE (q * 100)).toNat / 100))
      rw [hxs] at hc
      simp only [List.cons_append, List.head?_cons, Option.some.injEq] at hc
      obtain ⟨d, hd10, hdc⟩ := renderNat_shape ((roundHE (q * 100)).toNat / 100) x
        (by rw [hxs]; exact List.mem_cons_self x xs)
      rw [← hc, hdc]
      exact digitCh_not_ws d hd10
    · intro c hc
      rw [List.getLast?_append_of_ne_nil _ (by simp)] at hc
      have hc2 : ([ ' ' ] ++ u).getLast? = some c := hc
      rw [List.getLast?_append_of_ne_nil _ hu_ne] at hc2
      have : c ∈ u.getLast? := by rw [hc2]; rfl
      obtain ⟨hne, rfl⟩ := List.mem_getLast?_eq_getLast this
      exact huws _ (List.getLast_mem hne)
  have hupper : upperChars ((renderNat ((roundHE (q * 100)).toNat / 100)
      ++ '.' :: renderTwo ((roundHE (q * 100)).toNat % 100)) ++ ' ' :: u) =
      (renderNat ((roundHE (q * 100)).toNat / 100)
        ++ '.' :: renderTwo ((roundHE (q * 100)).toNat % 100)) ++ ' ' :: u := by
    apply upperChars_eq_self
    intro c hc
    rcases List.mem_append.1 hc with hc | hc
    · rcases hshape c hc with hc2 | ⟨d, hd10, hc2⟩
      · rw [hc2]; decide
      · rw [hc2]; exact digitCh_toUpper d hd10
    · rcases List.mem_cons.1 hc with hc | hc
      · rw [hc]; decide
      · exact huup c hc
  have hfull : upperChars (stripWS (fmt2 q ++ spaceStr ++ String.mk u).data) =
      (renderNat ((roundHE (q * 100)).toNat / 100)
        ++ '.' :: renderTwo ((roundHE (q * 100)).toNat % 100)) ++ ' ' :: u := by
    rw [hdata, hstrip, hupper]
  unfold convert_human_readable_to_bytes
  rw [hfull]
  rw [if_neg (by
    intro hnil
    exact renderNat_ne_nil _ (List.append_eq_nil.1 (List.append_eq_nil.1 hnil).1).1)]
  have hsplit : splitNumUnit ((renderNat ((roundHE (q * 100)).toNat / 100)
      ++ '.' :: renderTwo ((roundHE (q * 100)).toNat % 100)) ++ ' ' :: u) =
      (renderNat ((roundHE (q * 100)).toNat / 100)
        ++ '.' :: renderTwo ((roundHE (q * 100)).toNat % 100), ' ' :: u) := by
    apply splitNumUnit_append
    · intro c hc
      rcases hshape c hc with hc2 | ⟨d, hd10, hc2⟩
      · rw [hc2]; decide
      · rw [hc2]
        simp [digitCh_isDigit d hd10]
    · intro c hc
      rcases List.mem_cons.1 hc with hc | hc
      · rw [hc]; decide
      · exact hund c hc
  rw [hsplit]
  show (match pyFloatDigitsDot (renderNat ((roundHE (q * 100)).toNat / 100)
      ++ '.' :: renderTwo ((roundHE (q * 100)).toNat % 100)) with
    | none => 0
    | some num => applyUnit (' ' :: u) num) = _
  unfold pyFloatDigitsDot
  rw [pyFloatParts_render _ _ (Nat.mod_lt _ (by norm_num))]
  show applyUnit (' ' :: u) (((((roundHE (q * 100)).toNat / 100 : ℕ) : ℚ))
    + (((roundHE (q * 100)).toNat % 100 : ℕ) : ℚ) / (10 : ℚ) ^ 2) = _
  rw [applyUnit_eq]
  have hval : ((((roundHE (q * 100)).toNat / 100 : ℕ) : ℚ))
      + (((roundHE (q * 100)).toNat % 100 : ℕ) : ℚ) / (10 : ℚ) ^ 2 =
      (((roundHE (q * 100)).toNat : ℕ) : ℚ) / 100 := by
    have hdm : (100 : ℕ) * ((roundHE (q * 100)).toNat / 100)
        + (roundHE (q * 100)).toNat % 100 = (roundHE (q * 100)).toNat :=
      Nat.div_add_mod _ 100
    have hcast : (100 : ℚ) * (((roundHE (q * 100)).toNat / 100 : ℕ) : ℚ)
        + (((roundHE (q * 100)).toNat % 100 : ℕ) : ℚ) =
        (((roundHE (q * 100)).toNat : ℕ) : ℚ) := by
      exact_mod_cast congrArg (fun n : ℕ => (n : ℚ)) hdm
    field_simp
    linarith [hcast]
  rw [hval]

theorem div_1024_lt (q : ℚ) (j : ℕ) (h : q < 1024 ^ (j + 1)) : q / 1024 ^ j < 1024 := by
  rw [div_lt_iff (by positivity)]
  calc q < 1024 ^ (j + 1) := h
    _ = 1024 * 1024 ^ j := by ring

theorem not_div_1024_lt (q : ℚ) (j : ℕ) (h : 1024 ^ (j + 1) ≤ q) :
    ¬ q / 1024 ^ j < 1024 := by
  rw [not_lt, le_div_iff (by positivity)]
  calc (1024 : ℚ) * 1024 ^ j = 1024 ^ (j + 1) := by ring
    _ ≤ q := h

theorem one_le_div_1024 (q : ℚ) (j : ℕ) (h : 1024 ^ j ≤ q) : 1 ≤ q / 1024 ^ j := by
  rw [le_div_iff (by positivity)]
  calc (1 : ℚ) * 1024 ^ j = 1024 ^ j := by ring
    _ ≤ q := h

/-- The unit-selection behaviour of the formatting loop: on each range
`[1024^k, 1024^(k+1))` the value is divided `k` times and labelled with
the `k`-th unit; at and above `1024^6` the loop exits with the value
divided six times, still labelled `PB`. -/
theorem toHuman_ranges (q : ℚ) :
    (q < 1024 → convert_bytes_to_human_readable (some q) =
      fmt2 q ++ spaceStr ++ String.mk [ 'B' ])
  ∧ (1024 ≤ q → q < 1024 ^ 2 → convert_bytes_to_human_readable (some q) =
      fmt2 (q / 1024 ^ 1) ++ spaceStr ++ String.mk [ 'K', 'B' ])
  ∧ (1024 ^ 2 ≤ q → q < 1024 ^ 3 → convert_bytes_to_human_readable (some q) =
      fmt2 (q / 1024 ^ 2) ++ spaceStr ++ String.mk [ 'M', 'B' ])
  ∧ (1024 ^ 3 ≤ q → q < 1024 ^ 4 → convert_bytes_to_human_readable (some q) =
      fmt2 (q / 1024 ^ 3) ++ spaceStr ++ String.mk [ 'G', 'B' ])
  ∧ (1024 ^ 4 ≤ q → q < 1024 ^ 5 → convert_bytes_to_human_readable (some q) =
      fmt2 (q / 1024 ^ 4) ++ spaceStr ++ String.mk [ 'T', 'B' ])
  ∧ (1024 ^ 5 ≤ q → q < 1024 ^ 6 → convert_bytes_to_human_readable (some q) =
      fmt2 (q / 1024 ^ 5) ++ spaceStr ++ String.mk [ 'P', 'B' ])
  ∧ (1024 ^ 6 ≤ q → convert_bytes_to_human_readable (some q) =
      fmt2 (q / 1024 ^ 6) ++ spaceStr ++ String.mk [ 'P', 'B' ]) := by
  have e0 : q / 1024 = q / 1024 ^ 1 := by ring
  have e1 : q / 1024 ^ 1 / 1024 = q / 1024 ^ 2 := by ring
  have e2 : q / 1024 ^ 2 / 1024 = q / 1024 ^ 3 := by ring
  have e3 : q / 1024 ^ 3 / 1024 = q / 1024 ^ 4 := by ring
  have e4 : q / 1024 ^ 4 / 1024 = q / 1024 ^ 5 := by ring
  have e5 : q / 1024 ^ 5 / 1024 = q / 1024 ^ 6 := by ring
  have hle1 : ∀ j : ℕ, 1 ≤ j → 1024 ^ j ≤ q → (1024 : ℚ) ≤ q := by
    intro j hj h
    calc (1024 : ℚ) = 1024 ^ 1 := by ring
      _ ≤ 1024 ^ j := by
        apply pow_le_pow_right (by norm_num) hj
      _ ≤ q := h
  refine ⟨?_, ?_, ?_, ?_, ?_, ?_, ?_⟩
  · intro h
    simp only [convert_bytes_to_human_readable, UNIT_NAMES, toHumanLoop, e0, e1, e2, e3, e4, e5]
    rw [if_pos h]
  · intro h1 h2
    simp only [convert_bytes_to_human_readable, UNIT_NAMES, toHumanLoop, e0, e1, e2, e3, e4, e5]
    rw [if_neg (not_lt.2 h1), if_pos (by rw [← e0]; rw [div_lt_iff (by norm_num)]; linarith)]
  · intro h1 h2
    simp only [convert_bytes_to_human_readable, UNIT_NAMES, toHumanLoop, e0, e1, e2, e3, e4, e5]
    rw [if_neg (not_lt.2 (hle1 2 (by norm_num) h1)),
      if_neg (not_div_1024_lt q 1 h1), if_pos (div_1024_lt q 2 h2)]
  · intro h1 h2
    simp only [convert_bytes_to_human_readable, UNIT_NAMES, toHumanLoop, e0, e1, e2, e3, e4, e5]
    rw [if_neg (not_lt.2 (hle1 3 (by norm_num) h1)),
      if_neg (not_div_1024_lt q 1 (by
        calc (1024 : ℚ) ^ 2 ≤ 1024 ^ 3 := by norm_num
          _ ≤ q := h1)),
      if_neg (not_div_1024_lt q 2 h1), if_pos (div_1024_lt q 3 h2)]
  · intro h1 h2
    simp only [convert_bytes_to_human_readable, UNIT_NAMES, toHumanLoop, e0, e1, e2, e3, e4, e5]
    rw [if_neg (not_lt.2 (hle1 4 (by norm_num) h1)),
      if_neg (not_div_1024_lt q 1 (by
        calc (1024 : ℚ) ^ 2 ≤ 1024 ^ 4 := by norm_num
          _ ≤ q := h1)),
      if_neg (not_div_1024_lt q 2 (by
        calc (1024 : ℚ) ^ 3 ≤ 1024 ^ 4 := by norm_num
          _ ≤ q := h1)),
      if_neg (not_div_1024_lt q 3 h1), if_pos (div_1024_lt q 4 h2)]
  · intro h1 h2
    simp only [convert_bytes_to_human_readable, UNIT_NAMES, toHumanLoop, e0, e1, e2, e3, e4, e5]
    rw [if_neg (not_lt.2 (hle1 5 (by norm_num) h1)),
      if_neg (not_div_1024_lt q 1 (by
        calc (1024 : ℚ) ^ 2 ≤ 1024 ^ 5 := by norm_num
          _ ≤ q := h1)),
      if_neg (not_div_1024_lt q 2 (by
        calc (1024 : ℚ) ^ 3 ≤ 1024 ^ 5 := by norm_num
          _ ≤ q := h1)),
      if_neg (not_div_1024_lt q 3 (by
        calc (1024 : ℚ) ^ 4 ≤ 1024 ^ 5 := by norm_num
          _ ≤ q := h1)),
      if_neg (not_div_1024_lt q 4 h1), if_pos (div_1024_lt q 5 h2)]
  · intro h1
    simp only [convert_bytes_to_human_readable, UNIT_NAMES, toHumanLoop, e0, e1, e2, e3, e4, e5]
    rw [if_neg (not_lt.2 (hle1 6 (by norm_num) h1)),
      if_neg (not_div_1024_lt q 1 (by
        calc (1024 : ℚ) ^ 2 ≤ 1024 ^ 6 := by norm_num
          _ ≤ q := h1)),
      if_neg (not_div_1024_lt q 2 (by
        calc (1024 : ℚ) ^ 3 ≤ 1024 ^ 6 := by norm_num
          _ ≤ q := h1)),
      if_neg (not_div_1024_lt q 3 (by
        calc (1024 : ℚ) ^ 4 ≤ 1024 ^ 6 := by norm_num
          _ ≤ q := h1)),
      if_neg (not_div_1024_lt q 4 (by
        calc (1024 : ℚ) ^ 5 ≤ 1024 ^ 6 := by norm_num
          _ ≤ q := h1)),
      if_neg (not_div_1024_lt q 5 h1)]
    rfl

/-! ## Claim C8: human-readable formatting -/

/-- C8 counterexample: the claim says the displayed magnitude lies in
`[1, 1024)` for every unit except the top unit PB, but 0 bytes is
formatted as `0.00 B`, displayed magnitude 0, with unit B which is not
the top unit. -/
theorem c8_unit_magnitude_counterexample :
    convert_bytes_to_human_readable (some 0) = "0.00 B"
  ∧ ¬ ((1 : ℚ) ≤ 0) := by
  constructor
  · rw [(toHuman_ranges 0).1 (by norm_num),
      show (0 : ℚ) = ((0 : ℕ) : ℚ) by norm_num, fmt2_natCast]
    decide
  · norm_num

/-- C8 amended: `convert_bytes_to_human_readable` maps `None` to the
sentinel `N/A`; for every non-negative value it repeatedly divides by
1024 along B, KB, MB, GB, TB, PB, stops at the first unit where the
magnitude is below 1024, and formats that magnitude with two decimals
followed by the unit.  The selected magnitude lies in `[1, 1024)` for
the units KB through PB (values below `1024^6`); for the bottom unit B
the magnitude lies in `[0, 1024)`, and at and above `1024^6` the loop
formats the value divided by `1024^6`, still labelled PB. -/
theorem c8_human_readable_units (q : ℚ) (hq : 0 ≤ q) :
    (convert_bytes_to_human_readable none = naStr)
  ∧ (q < 1024 → convert_bytes_to_human_readable (some q) =
      fmt2 q ++ spaceStr ++ String.mk [ 'B' ] ∧ 0 ≤ q)
  ∧ (1024 ≤ q → q < 1024 ^ 2 → convert_bytes_to_human_readable (some q) =
      fmt2 (q / 1024 ^ 1) ++ spaceStr ++ String.mk [ 'K', 'B' ]
      ∧ 1 ≤ q / 1024 ^ 1 ∧ q / 1024 ^ 1 < 1024)
  ∧ (1024 ^ 2 ≤ q → q < 1024 ^ 3 → convert_bytes_to_human_readable (some q) =
      fmt2 (q / 1024 ^ 2) ++ spaceStr ++ String.mk [ 'M', 'B' ]
      ∧ 1 ≤ q / 1024 ^ 2 ∧ q / 1024 ^ 2 < 1024)
  ∧ (1024 ^ 3 ≤ q → q < 1024 ^ 4 → convert_bytes_to_human_readable (some q) =
      fmt2 (q / 1024 ^ 3) ++ spaceStr ++ String.mk [ 'G', 'B' ]
      ∧ 1 ≤ q / 1024 ^ 3 ∧ q / 1024 ^ 3 < 1024)
  ∧ (1024 ^ 4 ≤ q → q < 1024 ^ 5 → convert_bytes_to_human_readable (some q) =
      fmt2 (q / 1024 ^ 4) ++ spaceStr ++ String.mk [ 'T', 'B' ]
      ∧ 1 ≤ q / 1024 ^ 4 ∧ q / 1024 ^ 4 < 1024)
  ∧ (1024 ^ 5 ≤ q → q < 1024 ^ 6 → convert_bytes_to_human_readable (some q) =
      fmt2 (q / 1024 ^ 5) ++ spaceStr ++ String.mk [ 'P', 'B' ]
      ∧ 1 ≤ q / 1024 ^ 5 ∧ q / 1024 ^ 5 < 1024)
  ∧ (1024 ^ 6 ≤ q → convert_bytes_to_human_readable (some q) =
      fmt2 (q / 1024 ^ 6) ++ spaceStr ++ String.mk [ 'P', 'B' ]
      ∧ 1 ≤ q / 1024 ^ 6) := by
  refine ⟨rfl, ?_, ?_, ?_, ?_, ?_, ?_, ?_⟩
  · intro h
    exact ⟨(toHuman_ranges q).1 h, hq⟩
  · intro h1 h2
    exact ⟨(toHuman_ranges q).2.1 h1 h2,
      one_le_div_1024 q 1 (by rw [pow_one]; exact h1), div_1024_lt q 1 h2⟩
  · intro h1 h2
    exact ⟨(toHuman_ranges q).2.2.1 h1 h2,
      one_le_div_1024 q 2 h1, div_1024_lt q 2 h2⟩
  · intro h1 h2
    exact ⟨(toHuman_ranges q).2.2.2.1 h1 h2,
      one_le_div_1024 q 3 h1, div_1024_lt q 3 h2⟩
  · intro h1 h2
    exact ⟨(toHuman_ranges q).2.2.2.2.1 h1 h2,
      one_le_div_1024 q 4 h1, div_1024_lt q 4 h2⟩
  · intro h1 h2
    exact ⟨(toHuman_ranges q).2.2.2.2.2.1 h1 h2,
      one_le_div_1024 q 5 h1, div_1024_lt q 5 h2⟩
  · intro h1
    exact ⟨(toHuman_ranges q).2.2.2.2.2.2 h1, one_le_div_1024 q 6 (by
      calc (1024 : ℚ) ^ 6 ≤ q := h1)⟩

/-- Witness for C8 (amended) at 2048 bytes, formatted as KB. -/
theorem c8_human_readable_units_witness :
    (0 : ℚ) ≤ 2048 ∧ (1024 : ℚ) ≤ 2048 ∧ (2048 : ℚ) < 1024 ^ 2
  ∧ convert_bytes_to_human_readable (some 2048) =
      fmt2 ((2048 : ℚ) / 1024 ^ 1) ++ spaceStr ++ String.mk [ 'K', 'B' ]
  ∧ convert_bytes_to_human_readable (some 2048) = "2.00 KB" := by
  have h := ((c8_human_readable_units 2048 (by norm_num)).2.2.1
    (by norm_num) (by norm_num)).1
  refine ⟨by norm_num, by norm_num, by norm_num, h, ?_⟩
  rw [h, show (2048 : ℚ) / 1024 ^ 1 = ((2 : ℕ) : ℚ) by norm_num, fmt2_natCast]
  decide

/-! ## Claim C4: the round-trip bound -/

/-- C4 counterexample: the claim quantifies over every non-negative byte
count, but at `1024^6` bytes the formatter has exhausted its unit list:
it prints `1.00 PB` (the value divided by `1024^6` with the label PB),
which parses back to `1024^5`, off by a factor of 1024 — far beyond the
rounding loss of the two-decimal formatting at the selected unit PB. -/
theorem c4_roundtrip_counterexample :
    convert_human_readable_to_bytes
        (convert_bytes_to_human_readable (some ((1024 : ℚ) ^ 6))) = 1024 ^ 5
  ∧ ¬ (|(1024 : ℚ) ^ 5 - 1024 ^ 6| ≤ 1024 ^ 5 / 200) := by
  constructor
  · rw [(toHuman_ranges ((1024 : ℚ) ^ 6)).2.2.2.2.2.2 (le_refl _),
      show (1024 : ℚ) ^ 6 / 1024 ^ 6 = ((1 : ℕ) : ℚ) by norm_num,
      tobytes_fmt2_unit (((1 : ℕ) : ℚ)) [ 'P', 'B' ] (by decide) (by decide)
        (by decide) (by decide),
      show (((1 : ℕ) : ℚ) * 100) = ((100 : ℕ) : ℚ) by norm_num,
      roundHE_natCast,
      show unitExp (' ' :: [ 'P', 'B' ]) = 5 by decide,
      show (((100 : ℕ) : ℤ)).toNat = (100 : ℕ) from rfl]
    norm_num
  · rw [abs_of_nonpos (by norm_num)]
    norm_num

/-- C4 amended: for every byte count `x` below `1024^6` (where the unit
list suffices), the round-trip through the human-readable formatting
recovers `x` within the rounding loss of the two-decimal formatting at
the selected unit: there is a unit index `k ≤ 5` with `x < 1024^(k+1)`
(and `1024^k ≤ x` unless `k = 0`) such that the round-trip differs from
`x` by at most `1024^k / 200` (half of one hundredth of a unit step). -/
theorem c4_roundtrip_bound (x : ℕ) (hx : (x : ℚ) < 1024 ^ 6) :
    ∃ k : ℕ, k ≤ 5 ∧ (x : ℚ) < 1024 ^ (k + 1) ∧ (k = 0 ∨ 1024 ^ k ≤ (x : ℚ))
      ∧ |convert_human_readable_to_bytes
            (convert_bytes_to_human_readable (some (x : ℚ))) - (x : ℚ)|
          ≤ 1024 ^ k / 200 := by
  have main : ∀ (k : ℕ) (u : List Char), u ≠ [] →
      (∀ c ∈ u, (c.isDigit || c = '.') = false) →
      (∀ c ∈ u, c.isWhitespace = false) →
      (∀ c ∈ u, c.toUpper = c) → unitExp (' ' :: u) = k →
      convert_bytes_to_human_readable (some (x : ℚ)) =
        fmt2 ((x : ℚ) / 1024 ^ k) ++ spaceStr ++ String.mk u →
      |convert_human_readable_to_bytes
          (convert_bytes_to_human_readable (some (x : ℚ))) - (x : ℚ)|
        ≤ 1024 ^ k / 200 := by
    intro k u hne hund hws hup hexp heq
    rw [heq, tobytes_fmt2_unit _ u hne hund hws hup, hexp]
    have hv0 : (0 : ℚ) ≤ (x : ℚ) / 1024 ^ k := by positivity
    have hr0 : 0 ≤ roundHE ((x : ℚ) / 1024 ^ k * 100) :=
      roundHE_nonneg _ (by positivity)
    have hcast : (((roundHE ((x : ℚ) / 1024 ^ k * 100)).toNat : ℕ) : ℚ) =
        ((roundHE ((x : ℚ) / 1024 ^ k * 100) : ℤ) : ℚ) := by
      exact_mod_cast congrArg (fun z : ℤ => (z : ℚ)) (Int.toNat_of_nonneg hr0)
    rw [hcast]
    have habs := abs_roundHE_sub ((x : ℚ) / 1024 ^ k * 100)
    have hfact : ((roundHE ((x : ℚ) / 1024 ^ k * 100) : ℤ) : ℚ) / 100 * 1024 ^ k
        - (x : ℚ) =
        (((roundHE ((x : ℚ) / 1024 ^ k * 100) : ℤ) : ℚ) - (x : ℚ) / 1024 ^ k * 100)
          * (1024 ^ k / 100) := by
      field_simp
      ring
    rw [hfact, abs_mul, abs_of_nonneg (by positivity : (0 : ℚ) ≤ 1024 ^ k / 100)]
    calc |((roundHE ((x : ℚ) / 1024 ^ k * 100) : ℤ) : ℚ)
          - (x : ℚ) / 1024 ^ k * 100| * (1024 ^ k / 100)
        ≤ 1 / 2 * (1024 ^ k / 100) :=
          mul_le_mul_of_nonneg_right habs (by positivity)
      _ = 1024 ^ k / 200 := by ring
  by_cases h0 : (x : ℚ) < 1024
  · refine ⟨0, by norm_num, by simpa using h0, Or.inl rfl, ?_⟩
    apply main 0 [ 'B' ] (by decide) (by decide) (by decide) (by decide) (by decide)
    rw [show (x : ℚ) / 1024 ^ 0 = (x : ℚ) by norm_num]
    exact (toHuman_ranges (x : ℚ)).1 h0
  by_cases h1 : (x : ℚ) < 1024 ^ 2
  · refine ⟨1, by norm_num, by simpa using h1, Or.inr (by rw [pow_one]; exact not_lt.1 h0), ?_⟩
    exact main 1 [ 'K', 'B' ] (by decide) (by decide) (by decide) (by decide) (by decide)
      ((toHuman_ranges (x : ℚ)).2.1 (not_lt.1 h0) h1)
  by_cases h2 : (x : ℚ) < 1024 ^ 3
  · refine ⟨2, by norm_num, by simpa using h2, Or.inr (not_lt.1 h1), ?_⟩
    exact main 2 [ 'M', 'B' ] (by decide) (by decide) (by decide) (by decide) (by decide)
      ((toHuman_ranges (x : ℚ)).2.2.1 (not_lt.1 h1) h2)
  by_cases h3 : (x : ℚ) < 1024 ^ 4
  · refine ⟨3, by norm_num, by simpa using h3, Or.inr (not_lt.1 h2), ?_⟩
    exact main 3 [ 'G', 'B' ] (by decide) (by decide) (by decide) (by decide) (by decide)
      ((toHuman_ranges (x : ℚ)).2.2.2.1 (not_lt.1 h2) h3)
  by_cases h4 : (x : ℚ) < 1024 ^ 5
  · refine ⟨4, by norm_num, by simpa using h4, Or.inr (not_lt.1 h3), ?_⟩
    exact main 4 [ 'T', 'B' ] (by decide) (by decide) (by decide) (by decide) (by decide)
      ((toHuman_ranges (x : ℚ)).2.2.2.2.1 (not_lt.1 h3) h4)
  · refine ⟨5, by norm_num, by simpa using hx, Or.inr (not_lt.1 h4), ?_⟩
    exact main 5 [ 'P', 'B' ] (by decide) (by decide) (by decide) (by decide) (by decide)
      ((toHuman_ranges (x : ℚ)).2.2.2.2.2.1 (not_lt.1 h4) hx)

/-- Witness for C4 (amended) at 5 bytes. -/
theorem c4_roundtrip_bound_witness :
    ((5 : ℕ) : ℚ) < 1024 ^ 6
  ∧ ∃ k : ℕ, k ≤ 5 ∧ ((5 : ℕ) : ℚ) < 1024 ^ (k + 1)
      ∧ (k = 0 ∨ 1024 ^ k ≤ ((5 : ℕ) : ℚ))
      ∧ |convert_human_readable_to_bytes
            (convert_bytes_to_human_readable (some ((5 : ℕ) : ℚ))) - ((5 : ℕ) : ℚ)|
          ≤ 1024 ^ k / 200 :=
  ⟨by norm_num, c4_roundtrip_bound 5 (by norm_num)⟩

end DiskAnalyser
